import Mathlib

/-!
Shallow embedding of the tariff-master processing engine of the
proyecto_excel repository (`excel_app/utils.py`), together with proofs
about its behaviour.

Conventions of the embedding:

* Spreadsheet cells are `Option String`: `none` models a missing value
  (pandas `NaN`); `some s` models a cell whose `str()` rendering is `s`.
  `str()` of a missing cell renders as `"nan"`, exactly as pandas does.
* Python `float` amounts are modelled as exact rationals `ℚ`; all the
  numeric constants compared by the code are exactly representable, so
  every comparison made by the source is preserved.
* Python `float(...)` string parsing is modelled for finite decimal
  literals (optional sign, digits, optional fractional part).  The
  special tokens `inf`/`nan` and exponent notation, which do not occur
  in the spreadsheet data handled by this program, are modelled as
  parse failures.
* A Python `dict` is modelled as an association list with
  insert-or-overwrite-in-place semantics (`insertOv`), matching the
  insertion-order behaviour of CPython dicts.
* `str.upper()` composed with NFD decomposition and dropping of
  combining marks is modelled per character by `charFold`, covering
  ASCII plus the Latin accented letters occurring in the (Spanish)
  data of this application.  Characters outside that domain are fixed.
-/

def isWs (c : Char) : Bool := c.isWhitespace

/-- Python `str.strip()`, over the character list of a string. -/
def stripWs (l : List Char) : List Char :=
  ((l.dropWhile isWs).reverse.dropWhile isWs).reverse

/-- Decimal digit characters, used to model Python `str(int)`. -/
def digitChar (n : ℕ) : Char :=
  match n with
  | 0 => '0' | 1 => '1' | 2 => '2' | 3 => '3' | 4 => '4'
  | 5 => '5' | 6 => '6' | 7 => '7' | 8 => '8' | _ => '9'

def digitVal (c : Char) : ℕ := c.toNat - '0'.toNat

/-- Value of a decimal digit string (most significant digit first). -/
def digitsToNat (ds : List Char) : ℕ :=
  ds.foldl (fun a c => 10 * a + digitVal c) 0

/-- Fuel-based decimal rendering of a natural number, so that it
reduces definitionally; `natDigits` supplies enough fuel. -/
def natDigitsAux : ℕ → ℕ → List Char
  | 0, n => [digitChar (n % 10)]
  | fuel+1, n =>
    if n < 10 then [digitChar n]
    else natDigitsAux fuel (n / 10) ++ [digitChar (n % 10)]

def natDigits (n : ℕ) : List Char := natDigitsAux n n

/-- Python `str(n)` for a nonnegative integer. -/
def natStr (n : ℕ) : String := String.mk (natDigits n)

/-- Core of the model of Python `float(...)` on an (already stripped,
unsigned) character list: digits, optional decimal point, digits.  The
value `ip.fp` is assembled with `mkRat` over integer arithmetic, which
is the exact rational `ip + fp / 10 ^ |fp|`. -/
def pyFloatCore (cs : List Char) : Option ℚ :=
  let ip := cs.takeWhile Char.isDigit
  match cs.dropWhile Char.isDigit with
  | [] => if ip.isEmpty then none else some ((digitsToNat ip : ℚ))
  | '.' :: t =>
    let fp := t.takeWhile Char.isDigit
    if (t.dropWhile Char.isDigit).isEmpty then
      if ip.isEmpty && fp.isEmpty then none
      else some (mkRat ((digitsToNat ip * 10 ^ fp.length + digitsToNat fp : ℕ) : ℤ)
        (10 ^ fp.length))
    else none
  | _ => none

/-- Model of Python `float(s)` for finite decimal literals: surrounding
whitespace is ignored, then an optional sign and `pyFloatCore`. -/
def pyFloatChars (cs0 : List Char) : Option ℚ :=
  match stripWs cs0 with
  | [] => none
  | c :: t =>
    if c = '-' then (pyFloatCore t).map (fun q => -q)
    else if c = '+' then pyFloatCore t
    else pyFloatCore (c :: t)

def pyFloat? (s : String) : Option ℚ := pyFloatChars s.data

/-- Python `int(q)` for a float value: truncation toward zero. -/
def pyTrunc (q : ℚ) : ℤ := if 0 ≤ q then q.floor else -((-q).floor)

/-- Zero-padding of a character list to width `w` (Python `str.zfill`);
a longer input is returned unchanged. -/
def zfillChars (w : ℕ) (l : List Char) : List Char :=
  List.replicate (w - l.length) '0' ++ l

/-- The reformatted code string `str(int(...)).zfill(8)` used by the
translator loader and the output builder. -/
def mkCod (n : ℕ) : String := String.mk (zfillChars 8 (natDigits n))

/-- Python `int(float(s))` for a code string; every call site is guarded
by `validar_codigo`, which guarantees the parse succeeds and the result
is a strictly positive integer. -/
def intOfCode (s : String) : ℕ := (((pyFloat? s).map pyTrunc).getD 0).toNat

/-- A spreadsheet cell: `none` is pandas `NaN`, `some s` a cell that
`str()` renders as `s`. -/
abbrev Cell := Option String

/-- Python `str(cell)`: a missing value renders as `"nan"`. -/
def cellStr : Cell → String
  | none => "nan"
  | some s => s

/-- Python `str.strip()` at the `String` level. -/
def pyStrip (s : String) : String := String.mk (stripWs s.data)

/-- `validar_codigo` of `utils.py`.  Callers pass `str()`-rendered
values, so the `pd.isna` guard of the source corresponds to the `"nan"`
entry of the blacklist here (a `NaN` cell renders as `"nan"`). -/
def validar_codigo (cod : String) : Bool :=
  let cod_str := pyStrip cod
  if cod_str = "" ∨ cod_str = "0" ∨ cod_str = "00000000" ∨ cod_str = "nan" ∨
      cod_str = "#N/A" ∨ cod_str = "N/A" then false
  else
    match pyFloat? cod_str with
    | some q => decide (0 < pyTrunc q)
    | none => false

/-- The string normalization steps of `limpiar_importe_raw`: strip,
drop `$` and spaces, then disambiguate the decimal convention (exactly
one comma and at least one period means periods are thousands
separators and the comma the decimal point; otherwise commas are
removed as thousands separators). -/
def limpiarNormaliza (s0 : String) : List Char :=
  let s1 := ((stripWs s0.data).filter (fun c => c ≠ '$')).filter (fun c => c ≠ ' ')
  if s1.count ',' = 1 ∧ 1 ≤ s1.count '.' then
    (s1.filter (fun c => c ≠ '.')).map (fun c => if c = ',' then '.' else c)
  else s1.filter (fun c => c ≠ ',')

/-- `limpiar_importe_raw` of `utils.py`: strips currency symbol and
spaces, disambiguates the decimal convention, parses, and clamps
nonpositive or unparsable values to `0`. -/
def limpiar_importe_raw (v : Cell) : ℚ :=
  match v with
  | none => 0
  | some s0 =>
    match pyFloatChars (limpiarNormaliza s0) with
    | some valor => if 0 < valor then valor else 0
    | none => 0

/-- The range-bound reading `int(float(cod)) if cod else 0` of
`determinar_concepto`; `none` models the `ValueError` caught by its
`except` clause. -/
def codigoEntero (s : String) : Option ℤ :=
  if s = "" then some 0 else (pyFloat? s).map pyTrunc

/-- `determinar_concepto` of `utils.py`; the catch-all `4` is the
`except` branch of the source. -/
def determinar_concepto (cod_desde cod_hasta tipo_calculado : String) : ℕ :=
  match codigoEntero cod_desde, codigoEntero cod_hasta with
  | some cod_desde_int, some cod_hasta_int =>
    if (42000000 ≤ cod_desde_int ∧ cod_desde_int ≤ 43000000) ∨
        (42000000 ≤ cod_hasta_int ∧ cod_hasta_int ≤ 43000000) then 1
    else if tipo_calculado = "M" then 4
    else if tipo_calculado = "V" then 1
    else 4
  | _, _ => 4

/-- `determinar_tipo` of `utils.py` over the (always numeric) amount. -/
def determinar_tipo (valor : ℚ) : String :=
  let valor_float := if valor = 0 then (0 : ℚ) else valor
  if valor_float < 14000000 then "M"
  else if 40000000 ≤ valor_float ∧ valor_float ≤ 44000000 then "C"
  else "V"

/-- Per-character model of Python `.upper()` followed by NFD
decomposition and dropping of combining marks, over ASCII plus the
Latin accented letters of the application's Spanish data; characters
outside this domain are left unchanged. -/
def upperFoldMap : List (Char × Char) :=
  [('á', 'A'), ('é', 'E'), ('í', 'I'), ('ó', 'O'), ('ú', 'U'),
   ('Á', 'A'), ('É', 'E'), ('Í', 'I'), ('Ó', 'O'), ('Ú', 'U'),
   ('ü', 'U'), ('Ü', 'U'), ('ñ', 'N'), ('Ñ', 'N'),
   ('à', 'A'), ('è', 'E'), ('ì', 'I'), ('ò', 'O'), ('ù', 'U'),
   ('â', 'A'), ('ê', 'E'), ('î', 'I'), ('ô', 'O'), ('û', 'U'),
   ('ä', 'A'), ('ë', 'E'), ('ï', 'I'), ('ö', 'O'),
   ('a', 'A'), ('b', 'B'), ('c', 'C'), ('d', 'D'), ('e', 'E'),
   ('f', 'F'), ('g', 'G'), ('h', 'H'), ('i', 'I'), ('j', 'J'),
   ('k', 'K'), ('l', 'L'), ('m', 'M'), ('n', 'N'), ('o', 'O'),
   ('p', 'P'), ('q', 'Q'), ('r', 'R'), ('s', 'S'), ('t', 'T'),
   ('u', 'U'), ('v', 'V'), ('w', 'W'), ('x', 'X'), ('y', 'Y'),
   ('z', 'Z')]

def charFold (c : Char) : Char :=
  match upperFoldMap.find? (fun p => p.1 = c) with
  | some p => p.2
  | none => c

/-- Splitting on whitespace runs (Python `str.split()` with no
arguments), with an accumulator for the current word. -/
def wordsAux : List Char → List Char → List (List Char)
  | [], acc => if acc = [] then [] else [acc.reverse]
  | c :: t, acc =>
    if isWs c then
      if acc = [] then wordsAux t [] else acc.reverse :: wordsAux t []
    else wordsAux t (c :: acc)

def wordsOf (l : List Char) : List (List Char) := wordsAux l []

/-- Python `" ".join(words)`. -/
def joinWords : List (List Char) → List Char
  | [] => []
  | [w] => w
  | w :: ws => w ++ ' ' :: joinWords ws

/-- `normalizar_texto` of `utils.py`: strip, uppercase, drop combining
marks (`charFold`), collapse whitespace runs to single spaces. -/
def normalizar_texto (s : String) : String :=
  String.mk (joinWords (wordsOf ((stripWs s.data).map charFold)))

/-- Insert-or-overwrite into an association list, in place, preserving
position, as assignment into a CPython dict does. -/
def insertOv {β : Type} (k : String) (v : β) : List (String × β) → List (String × β)
  | [] => [(k, v)]
  | (k', v') :: t => if k' = k then (k, v) :: t else (k', v') :: insertOv k v t

/-- Dict lookup over an association list (first binding wins; `insertOv`
keeps keys unique). -/
def lookupA {β : Type} (m : List (String × β)) (k : String) : Option β :=
  (m.find? (fun p => p.1 = k)).map Prod.snd

/-- A value of `traductor_por_concepto`. -/
structure EntradaConcepto where
  cod_os : String
  cod_desde : String
  cod_hasta : String
deriving DecidableEq

/-- A value of `traductor_por_cod_os`. -/
structure EntradaCodOs where
  concepto : String
  cod_desde : String
  cod_hasta : String
deriving DecidableEq

/-- The pair of lookup indices built by `cargar_traductor`. -/
structure Traductores where
  por_concepto : List (String × EntradaConcepto)
  por_cod_os : List (String × EntradaCodOs)
deriving DecidableEq

/-- Row access `fila.iloc[i]`: pandas materializes every column, so a
ragged model row reads as `NaN` beyond its width. -/
def celda (fila : List Cell) (i : ℕ) : Cell := (fila.get? i).getD none

/-- The error taxonomy of the specification. -/
inductive ProcError
  | notFound
  | formatError
  | emptyData
  | configError
  | emptyTranslation
  | integrity
deriving DecidableEq

/-- The four positional fields read from a translator row
(`concepto = normalizar_texto(str(fila.iloc[0]))`,
`cod_os = str(fila.iloc[1]).strip()`, and the two range bounds). -/
def conceptoFila (fila : List Cell) : String := normalizar_texto (cellStr (celda fila 0))

def codOsFila (fila : List Cell) : String := pyStrip (cellStr (celda fila 1))

def codDesdeFila (fila : List Cell) : String := pyStrip (cellStr (celda fila 2))

def codHastaFila (fila : List Cell) : String := pyStrip (cellStr (celda fila 3))

/-- Processing of one row of the translator table (loop body of
`cargar_traductor`). -/
def filaTraductor (acc : Traductores) (fila : List Cell) : Traductores :=
  let concepto := conceptoFila fila
  let cod_os := codOsFila fila
  let cod_desde := codDesdeFila fila
  let cod_hasta := codHastaFila fila
  if ¬ (validar_codigo cod_desde = true ∧ validar_codigo cod_hasta = true) then acc
  else
    let cod_desde8 := mkCod (intOfCode cod_desde)
    let cod_hasta8 := mkCod (intOfCode cod_hasta)
    let acc1 :=
      if concepto ≠ "" then
        { acc with por_concepto := insertOv concepto ⟨cod_os, cod_desde8, cod_hasta8⟩ acc.por_concepto }
      else acc
    if cod_os ≠ "" ∧ cod_os ∉ (["nan", "#N/A", "N/A", ""] : List String) then
      { acc1 with por_cod_os := insertOv cod_os ⟨concepto, cod_desde8, cod_hasta8⟩ acc1.por_cod_os }
    else acc1

/-- `cargar_traductor` of `utils.py`, from the already-read table rows
(file-system access and the pandas read are outside the model); the
empty-table `ValueError` is `emptyData`, the final no-usable-rows
`ValueError` is `emptyTranslation`. -/
def cargar_traductor (filas : List (List Cell)) : Except ProcError Traductores :=
  if filas = [] then .error .emptyData
  else
    let t := filas.foldl filaTraductor ⟨[], []⟩
    if t.por_concepto = [] ∧ t.por_cod_os = [] then .error .emptyTranslation
    else .ok t

/-- The code range handed back by `buscar_en_traductor` (the caller
reads only `cod_desde`/`cod_hasta` of the returned dict). -/
structure Rango where
  cod_desde : String
  cod_hasta : String
deriving DecidableEq

/-- `buscar_en_traductor` of `utils.py`: by normalized concept first,
then by payer code. -/
def buscar_en_traductor (concepto cod_os : String)
    (traductor_concepto : List (String × EntradaConcepto))
    (traductor_cod_os : List (String × EntradaCodOs)) : Option Rango :=
  let concepto_normalizado := normalizar_texto concepto
  let cod_os_str := pyStrip cod_os
  match lookupA traductor_concepto concepto_normalizado with
  | some e => some ⟨e.cod_desde, e.cod_hasta⟩
  | none =>
    match lookupA traductor_cod_os cod_os_str with
    | some e => some ⟨e.cod_desde, e.cod_hasta⟩
    | none => none

/-- An extracted record of `procesar_maestro_individual`. -/
structure Registro where
  concepto_original : String
  cod_os : String
  cod_desde : String
  cod_hasta : String
  valor : ℚ
deriving DecidableEq

/-- A master snapshot: named columns over rows of cells. -/
structure DFrame where
  cols : List String
  rows : List (List Cell)

/-- Column access `fila[obra_col]` through the snapshot's header. -/
def valorCelda (df : DFrame) (fila : List Cell) (col : String) : Cell :=
  match df.cols.findIdx? (fun c => c = col) with
  | some i => celda fila i
  | none => none

/-- Loop body of `procesar_maestro_individual`. -/
def filaMaestro (df : DFrame) (obra_col : String)
    (tc : List (String × EntradaConcepto)) (tcos : List (String × EntradaCodOs))
    (datos_obra : List (String × Registro)) (fila : List Cell) :
    List (String × Registro) :=
  let cod_os := pyStrip (cellStr (celda fila 0))
  let concepto := pyStrip (cellStr (celda fila 1))
  if obra_col ∉ df.cols then datos_obra
  else
    let valor := limpiar_importe_raw (valorCelda df fila obra_col)
    if valor ≤ 0 then datos_obra
    else
      match buscar_en_traductor concepto cod_os tc tcos with
      | none => datos_obra
      | some resultado =>
        if ¬ (validar_codigo resultado.cod_desde = true ∧ validar_codigo resultado.cod_hasta = true) then
          datos_obra
        else
          insertOv (normalizar_texto concepto ++ "_" ++ cod_os)
            ⟨concepto, cod_os, resultado.cod_desde, resultado.cod_hasta, valor⟩ datos_obra

/-- `procesar_maestro_individual` of `utils.py`. -/
def procesar_maestro_individual (df : DFrame) (obra_col : String)
    (tc : List (String × EntradaConcepto)) (tcos : List (String × EntradaCodOs)) :
    List (String × Registro) :=
  df.rows.foldl (filaMaestro df obra_col tc tcos) []

/-- A per-payer cell of a change-log row: empty string, an amount, or
the literal `"Eliminado"`. -/
inductive ValorCampo
  | vacio
  | importe (q : ℚ)
  | eliminado
deriving DecidableEq

/-- A row of the global change log built by `comparar_maestros_global`. -/
structure FilaCambio where
  cod_os_antes : String
  cod_os_actual : String
  concepto_antes : String
  concepto_actual : String
  estado : String
  valores : List (String × ValorCampo)
  repetido : String
deriving DecidableEq

/-- The dict comprehension `{v["cod_os"]: v["concepto_original"] ...}`
of `comparar_maestros_global`. -/
def codosAConcepto (datos : List (String × Registro)) : List (String × String) :=
  datos.foldl (fun m kv => insertOv kv.2.cod_os kv.2.concepto_original m) []

/-- Python truthiness of an optional string (`None` and `""` are
falsy). -/
def strTruthy : Option String → Bool
  | none => false
  | some s => s ≠ ""

/-- The per-payer amount lookup of a change-log row (mask over the
current snapshot; first matching row; `""` when absent). -/
def valorObra (df_actual : DFrame) (cod_os : String) (concepto_actual : Option String)
    (obra_col : String) : ValorCampo :=
  if strTruthy concepto_actual then
    match df_actual.cols.findIdx? (fun c => c = obra_col),
        df_actual.rows.find? (fun r =>
          cellStr (celda r 0) = cod_os ∧ cellStr (celda r 1) = concepto_actual.getD "") with
    | some i, some r => .importe (limpiar_importe_raw (celda r i))
    | _, _ => .vacio
  else .eliminado

/-- Loop body of `comparar_maestros_global` for one payer code: the
status decision (with Python truthiness) and the row construction;
`none` is the `continue` of the source. -/
def mkCambio (ant act : List (String × String)) (obras_cols : List String)
    (df_actual : DFrame) (cod_os : String) : Option FilaCambio :=
  let concepto_antes := lookupA ant cod_os
  let concepto_actual := lookupA act cod_os
  let estado? :=
    if strTruthy concepto_antes = true ∧ strTruthy concepto_actual = true then
      if concepto_antes ≠ concepto_actual then some "Modificado" else none
    else if strTruthy concepto_antes = true ∧ ¬ strTruthy concepto_actual = true then
      some "Eliminado"
    else if strTruthy concepto_actual = true ∧ ¬ strTruthy concepto_antes = true then
      some "Nuevo"
    else none
  match estado? with
  | none => none
  | some estado =>
    some { cod_os_antes := if strTruthy concepto_antes then cod_os else ""
           cod_os_actual := if strTruthy concepto_actual then cod_os else ""
           concepto_antes := if strTruthy concepto_antes then concepto_antes.getD "" else ""
           concepto_actual := if strTruthy concepto_actual then concepto_actual.getD "" else ""
           estado := estado
           valores := obras_cols.map (fun obra_col =>
             (normalizar_texto obra_col, valorObra df_actual cod_os concepto_actual obra_col))
           repetido := "" }

/-- The duplicate marking of `comparar_maestros_global`
(`duplicated(subset=["cod_os_actual","concepto_actual"], keep=False)`). -/
def marcarRepetidos (filas : List FilaCambio) : List FilaCambio :=
  if filas = [] then filas
  else
    filas.map (fun f =>
      if 2 ≤ filas.countP (fun g =>
          g.cod_os_actual = f.cod_os_actual ∧ g.concepto_actual = f.concepto_actual) then
        { f with repetido := "Repetido" }
      else f)

/-- `comparar_maestros_global` of `utils.py`.  (`df_anterior` is a
parameter of the source function but is never read by it.) -/
def comparar_maestros_global (datos_actual datos_anterior : List (String × Registro))
    (obras_cols : List String) (df_actual df_anterior : DFrame) : List FilaCambio :=
  let codos_a_concepto_anterior := codosAConcepto datos_anterior
  let codos_a_concepto_actual := codosAConcepto datos_actual
  let codos_todos :=
    (codos_a_concepto_anterior.map Prod.fst ++ codos_a_concepto_actual.map Prod.fst).dedup
  marcarRepetidos
    (codos_todos.filterMap
      (mkCambio codos_a_concepto_anterior codos_a_concepto_actual obras_cols df_actual))

/-- Per-payer change test of `detectar_obras_sociales_con_cambios`
(new column, differing key sets, or an amount moving by more than the
`0.01` tolerance). -/
def obraCambia (df_actual df_anterior : DFrame)
    (tc : List (String × EntradaConcepto)) (tcos : List (String × EntradaCodOs))
    (obra_col : String) : Bool :=
  if obra_col ∉ df_anterior.cols then true
  else
    let datos_obra_actual := procesar_maestro_individual df_actual obra_col tc tcos
    let datos_obra_anterior := procesar_maestro_individual df_anterior obra_col tc tcos
    let claves_actual := datos_obra_actual.map Prod.fst
    let claves_anterior := datos_obra_anterior.map Prod.fst
    if ¬ (claves_actual.all (fun k => k ∈ claves_anterior) ∧
          claves_anterior.all (fun k => k ∈ claves_actual)) then true
    else
      claves_actual.any (fun clave =>
        if clave ∈ claves_anterior then
          decide ((0.01 : ℚ) <
            |((lookupA datos_obra_actual clave).map Registro.valor).getD 0 -
              ((lookupA datos_obra_anterior clave).map Registro.valor).getD 0|)
        else false)

/-- `detectar_obras_sociales_con_cambios` of `utils.py`; the result set
is modelled as the sublist of changed payer columns.  (`datos_actual`
is a parameter of the source but only `datos_anterior` is consulted
before the per-payer re-extraction.) -/
def detectar_obras_sociales_con_cambios
    (datos_actual datos_anterior : List (String × Registro))
    (obras_cols : List String) (df_actual df_anterior : DFrame)
    (tc : List (String × EntradaConcepto)) (tcos : List (String × EntradaCodOs)) :
    List String :=
  if datos_anterior = [] then obras_cols
  else obras_cols.filter (obraCambia df_actual df_anterior tc tcos)

/-- One output record (`datos_finales` entry of
`procesar_excel_maestro_django`).  `importe` models jointly the string
`str(valor)` stored in the record and its exact re-parse by
`pd.to_numeric` during deduplication. -/
structure FilaSalida where
  nom_id : String
  coddesde : String
  codhasta : String
  concepto : String
  importe : ℚ
  tipo : String
  plan_nombre : String
  prof_nombre : String
  pre_matp : String
  area : String
deriving DecidableEq

/-- Construction of one output record from an extracted record
(lines 499-517 of `utils.py`). -/
def mkFilaSalida (data : Registro) : FilaSalida :=
  let valor := data.valor
  let cod_desde := data.cod_desde
  let cod_hasta := data.cod_hasta
  let tipo := determinar_tipo valor
  let concepto_num := determinar_concepto cod_desde cod_hasta tipo
  { nom_id := "1"
    coddesde := if validar_codigo cod_desde then mkCod (intOfCode cod_desde) else ""
    codhasta := if validar_codigo cod_hasta then mkCod (intOfCode cod_hasta) else ""
    concepto := natStr concepto_num
    importe := valor
    tipo := tipo
    plan_nombre := ""
    prof_nombre := ""
    pre_matp := "0"
    area := "D" }

/-- The `datos_finales` list built for one payer. -/
def datos_finales (datos : List (String × Registro)) : List FilaSalida :=
  datos.map (fun kv => mkFilaSalida kv.2)

/-- Insertion into a list sorted by descending amount (model of
`sort_values("importe_num", ascending=False)`). -/
def insertaDesc (r : FilaSalida) : List FilaSalida → List FilaSalida
  | [] => [r]
  | x :: t => if x.importe ≤ r.importe then r :: x :: t else x :: insertaDesc r t

def ordenaDesc (l : List FilaSalida) : List FilaSalida := l.foldr insertaDesc []

/-- The deduplication key `(coddesde, codhasta)` of the final
`drop_duplicates`. -/
def claveSalida (r : FilaSalida) : String × String := (r.coddesde, r.codhasta)

/-- `drop_duplicates(subset=["coddesde","codhasta"], keep="first")`. -/
def quitaDuplicados (seen : List (String × String)) :
    List FilaSalida → List FilaSalida
  | [] => []
  | r :: t =>
    if claveSalida r ∈ seen then quitaDuplicados seen t
    else r :: quitaDuplicados (claveSalida r :: seen) t

/-- The final per-payer deduplication of `procesar_excel_maestro_django`
(lines 523-528): sort by amount descending, keep the first record of
each `(coddesde, codhasta)` key. -/
def dedup_final (rs : List FilaSalida) : List FilaSalida :=
  quitaDuplicados [] (ordenaDesc rs)

/-- The processing summary returned by the orchestrator. -/
structure InfoProceso where
  archivos_generados : ℕ
  archivos_omitidos : ℕ
  cambios_detectados : Bool
  excel_cambios_generado : Bool
  modo_procesamiento : String
deriving DecidableEq

/-- The archive integrity check closing `procesar_excel_maestro_django`
(lines 548-554): given the state of the generated ZIP file, fail with
the `IntegrityError` of the taxonomy, or return the path and summary. -/
def verificar_zip (zip_existe : Bool) (zip_tam : ℕ) (zip_path : String)
    (info : InfoProceso) : Except ProcError (String × InfoProceso) :=
  if ¬ zip_existe = true ∨ zip_tam < 100 then .error .integrity
  else .ok (zip_path, info)
instance {e a : Type} [DecidableEq e] [DecidableEq a] :
    DecidableEq (Except e a) := fun x y =>
  match x, y with
  | .error u, .error v =>
    if h : u = v then isTrue (congrArg Except.error h)
    else isFalse (fun hc => h (by injection hc))
  | .ok u, .ok v =>
    if h : u = v then isTrue (congrArg Except.ok h)
    else isFalse (fun hc => h (by injection hc))
  | .error _, .ok _ => isFalse (fun hc => Except.noConfusion hc)
  | .ok _, .error _ => isFalse (fun hc => Except.noConfusion hc)

/-- A code string in the canonical stored form: the 8-zero-padded
decimal rendering of a strictly positive integer. -/
def codBienFormado (s : String) : Prop := ∃ n : ℕ, 0 < n ∧ s = mkCod n

/-- Invariant of the by-concept index built by `cargar_traductor`. -/
def mapaConceptoValido (tc : List (String × EntradaConcepto)) : Prop :=
  ∀ k e, lookupA tc k = some e →
    (codBienFormado e.cod_desde ∧ codBienFormado e.cod_hasta) ∧ normalizar_texto k = k

/-- Invariant of the by-payer-code index built by `cargar_traductor`. -/
def mapaCodOsValido (tcos : List (String × EntradaCodOs)) : Prop :=
  ∀ k e, lookupA tcos k = some e → codBienFormado e.cod_desde ∧ codBienFormado e.cod_hasta

def traductoresValidos (t : Traductores) : Prop :=
  mapaConceptoValido t.por_concepto ∧ mapaCodOsValido t.por_cod_os

/-- Row validation applied by the translator loader: both range bounds
must pass `validar_codigo`. -/
def filaTraductorValida (fila : List Cell) : Bool :=
  validar_codigo (codDesdeFila fila) && validar_codigo (codHastaFila fila)

/-- Invariant of the extracted-record maps built by
`procesar_maestro_individual`: well-formed code range, and the key is
the normalized concept joined to the payer code. -/
def datosValidos (datos : List (String × Registro)) : Prop :=
  ∀ p ∈ datos, (codBienFormado p.2.cod_desde ∧ codBienFormado p.2.cod_hasta) ∧
    p.1 = normalizar_texto p.2.concepto_original ++ "_" ++ p.2.cod_os

theorem digitVal_digitChar {m : ℕ} (h : m < 10) : digitVal (digitChar m) = m := by
  interval_cases m <;> decide

theorem digitChar_isDigit (m : ℕ) : (digitChar m).isDigit = true := by
  unfold digitChar
  split <;> decide

theorem digitChar_not_ws (m : ℕ) : isWs (digitChar m) = false := by
  unfold digitChar
  split <;> decide

theorem digitsToNat_append_last (ds : List Char) (c : Char) :
    digitsToNat (ds ++ [c]) = 10 * digitsToNat ds + digitVal c := by
  simp [digitsToNat, List.foldl_append]

theorem digitsToNat_natDigitsAux :
    ∀ fuel n, n ≤ fuel → digitsToNat (natDigitsAux fuel n) = n := by
  intro fuel
  induction fuel with
  | zero =>
    intro n hn
    have h0 : n = 0 := Nat.le_zero.mp hn
    subst h0
    decide
  | succ fuel ih =>
    intro n hn
    by_cases h : n < 10
    · simp only [natDigitsAux, if_pos h]
      simp [digitsToNat, digitVal_digitChar h]
    · simp only [natDigitsAux, if_neg h]
      rw [digitsToNat_append_last]
      have hlt : n / 10 < n := Nat.div_lt_self (by omega) (by omega)
      rw [ih (n / 10) (by omega)]
      rw [digitVal_digitChar (Nat.mod_lt _ (by omega))]
      omega

theorem digitsToNat_natDigits (n : ℕ) : digitsToNat (natDigits n) = n :=
  digitsToNat_natDigitsAux n n le_rfl

theorem natDigitsAux_digits :
    ∀ fuel n c, c ∈ natDigitsAux fuel n → c.isDigit = true := by
  intro fuel
  induction fuel with
  | zero =>
    intro n c hc
    simp only [natDigitsAux, List.mem_singleton] at hc
    subst hc
    exact digitChar_isDigit _
  | succ fuel ih =>
    intro n c hc
    by_cases h : n < 10
    · simp only [natDigitsAux, if_pos h, List.mem_singleton] at hc
      subst hc
      exact digitChar_isDigit _
    · simp only [natDigitsAux, if_neg h, List.mem_append, List.mem_singleton] at hc
      rcases hc with hc | hc
      · exact ih _ _ hc
      · subst hc
        exact digitChar_isDigit _

theorem natDigits_digits (n : ℕ) {c : Char} (hc : c ∈ natDigits n) :
    c.isDigit = true :=
  natDigitsAux_digits n n c hc

theorem natDigitsAux_ne_nil : ∀ fuel n, natDigitsAux fuel n ≠ [] := by
  intro fuel n
  cases fuel with
  | zero => simp [natDigitsAux]
  | succ fuel =>
    by_cases h : n < 10
    · simp [natDigitsAux, if_pos h]
    · simp [natDigitsAux, if_neg h]

theorem isDigit_not_ws {c : Char} (h : c.isDigit = true) : isWs c = false := by
  simp only [Char.isDigit, Bool.and_eq_true, decide_eq_true_eq] at h
  obtain ⟨h1, h2⟩ := h
  simp only [isWs, Char.isWhitespace, Bool.or_eq_false_iff, decide_eq_false_iff_not]
  refine ⟨⟨⟨?_, ?_⟩, ?_⟩, ?_⟩ <;> intro hc <;> subst hc <;> revert h1 <;> decide

theorem takeWhile_all {p : Char → Bool} :
    ∀ {l : List Char}, (∀ c ∈ l, p c = true) → l.takeWhile p = l := by
  intro l
  induction l with
  | nil => intro _; rfl
  | cons a t ih =>
    intro h
    have ha := h a (by simp)
    simp [List.takeWhile_cons, ha, ih (fun c hc => h c (by simp [hc]))]

theorem dropWhile_all {p : Char → Bool} :
    ∀ {l : List Char}, (∀ c ∈ l, p c = true) → l.dropWhile p = [] := by
  intro l
  induction l with
  | nil => intro _; rfl
  | cons a t ih =>
    intro h
    simp only [List.dropWhile_cons, h a (by simp)]
    exact ih (fun c hc => h c (by simp [hc]))

theorem dropWhile_eq_self_of_head {p : Char → Bool} {a : Char} {t : List Char}
    (h : p a = false) : (a :: t).dropWhile p = a :: t := by
  simp [List.dropWhile_cons, h]

theorem stripWs_eq_self {l : List Char} (h : ∀ c ∈ l, isWs c = false) :
    stripWs l = l := by
  unfold stripWs
  have h1 : l.dropWhile isWs = l := by
    cases l with
    | nil => rfl
    | cons a t => exact dropWhile_eq_self_of_head (h a (by simp))
  rw [h1]
  have h2 : l.reverse.dropWhile isWs = l.reverse := by
    cases hr : l.reverse with
    | nil => rfl
    | cons a t =>
      refine dropWhile_eq_self_of_head (h a ?_)
      have : a ∈ l.reverse := by rw [hr]; simp
      simpa using this
  rw [h2, List.reverse_reverse]

theorem pyTrunc_natCast (n : ℕ) : pyTrunc (n : ℚ) = n := by
  unfold pyTrunc
  rw [if_pos (by positivity), Rat.floor_def']
  simp

theorem pyFloatCore_digits {cs : List Char} (hne : cs ≠ [])
    (h : ∀ c ∈ cs, c.isDigit = true) :
    pyFloatCore cs = some ((digitsToNat cs : ℚ)) := by
  unfold pyFloatCore
  rw [dropWhile_all h, takeWhile_all h]
  simp [List.isEmpty_iff, hne]

theorem pyFloatChars_digits {cs : List Char} (hne : cs ≠ [])
    (h : ∀ c ∈ cs, c.isDigit = true) :
    pyFloatChars cs = some ((digitsToNat cs : ℚ)) := by
  unfold pyFloatChars
  rw [stripWs_eq_self (fun c hc => isDigit_not_ws (h c hc))]
  cases hcs : cs with
  | nil => exact absurd hcs hne
  | cons a t =>
    have ha : a.isDigit = true := h a (by simp [hcs])
    have hma : a ≠ '-' := by rintro rfl; simp [Char.isDigit] at ha
    have hpa : a ≠ '+' := by rintro rfl; simp [Char.isDigit] at ha
    simp only [if_neg hma, if_neg hpa]
    rw [← hcs]
    exact pyFloatCore_digits hne h

theorem lookupA_insertOv_self {β : Type} (k : String) (v : β) :
    ∀ m : List (String × β), lookupA (insertOv k v m) k = some v := by
  intro m
  induction m with
  | nil => simp [insertOv, lookupA, List.find?]
  | cons p t ih =>
    by_cases h : p.1 = k
    · simp [insertOv, h, lookupA, List.find?]
    · cases p with
      | mk k' v' =>
        simp only [insertOv]
        rw [if_neg h]
        simpa [lookupA, List.find?_cons, h] using ih

theorem lookupA_insertOv_ne {β : Type} (k k' : String) (v : β) (hne : k' ≠ k) :
    ∀ m : List (String × β), lookupA (insertOv k v m) k' = lookupA m k' := by
  intro m
  induction m with
  | nil => simp [insertOv, lookupA, List.find?, Ne.symm hne]
  | cons p t ih =>
    cases p with
    | mk a b =>
      by_cases h : a = k
      · subst h
        simp only [insertOv, if_pos rfl]
        simp [lookupA, List.find?_cons, Ne.symm hne]
      · simp only [insertOv, if_neg h]
        by_cases h2 : a = k'
        · simp [lookupA, List.find?_cons, h2]
        · simpa [lookupA, List.find?_cons, h2] using ih

theorem mem_insertOv {β : Type} {k : String} {v : β} :
    ∀ {m : List (String × β)} {p : String × β},
      p ∈ insertOv k v m → p = (k, v) ∨ p ∈ m := by
  intro m
  induction m with
  | nil =>
    intro p hp
    simp [insertOv] at hp
    exact Or.inl hp
  | cons q t ih =>
    intro p hp
    cases q with
    | mk a b =>
      by_cases h : a = k
      · simp only [insertOv, if_pos h, List.mem_cons] at hp
        rcases hp with hp | hp
        · exact Or.inl hp
        · exact Or.inr (List.mem_cons_of_mem _ hp)
      · simp only [insertOv, if_neg h, List.mem_cons] at hp
        rcases hp with hp | hp
        · exact Or.inr (by simp [hp])
        · rcases ih hp with hp | hp
          · exact Or.inl hp
          · exact Or.inr (List.mem_cons_of_mem _ hp)

theorem lookupA_mem {β : Type} {m : List (String × β)} {k : String} {v : β}
    (h : lookupA m k = some v) : (k, v) ∈ m := by
  unfold lookupA at h
  cases hf : m.find? (fun p => p.1 = k) with
  | none => rw [hf] at h; simp at h
  | some p =>
    rw [hf] at h
    have hm := List.mem_of_find?_eq_some hf
    have hk := List.find?_some hf
    simp only [decide_eq_true_eq] at hk
    cases p with
    | mk a b =>
      simp only at hk
      simp at h
      subst hk
      subst h
      exact hm

theorem digitsToNat_replicate_zero (k : ℕ) (ds : List Char) :
    digitsToNat (List.replicate k '0' ++ ds) = digitsToNat ds := by
  induction k with
  | zero => simp
  | succ k ih =>
    have : List.replicate (k + 1) '0' ++ ds = '0' :: (List.replicate k '0' ++ ds) := by
      simp [List.replicate_succ]
    rw [this]
    have step : digitsToNat ('0' :: (List.replicate k '0' ++ ds)) =
        digitsToNat (List.replicate k '0' ++ ds) := by
      simp [digitsToNat, List.foldl_cons, digitVal]
    rw [step, ih]

theorem mkCod_data (n : ℕ) : (mkCod n).data = zfillChars 8 (natDigits n) := rfl

theorem mkCod_digits (n : ℕ) : ∀ c ∈ (mkCod n).data, c.isDigit = true := by
  intro c hc
  rw [mkCod_data] at hc
  unfold zfillChars at hc
  rcases List.mem_append.mp hc with hc | hc
  · rw [List.eq_of_mem_replicate hc]; decide
  · exact natDigits_digits n hc

theorem mkCod_digitsToNat (n : ℕ) : digitsToNat (mkCod n).data = n := by
  rw [mkCod_data]
  unfold zfillChars
  rw [digitsToNat_replicate_zero, digitsToNat_natDigits]

theorem mkCod_length (n : ℕ) : 8 ≤ (mkCod n).data.length := by
  rw [mkCod_data]
  unfold zfillChars
  rw [List.length_append, List.length_replicate]
  omega

theorem pyFloat_mkCod (n : ℕ) : pyFloat? (mkCod n) = some ((n : ℚ)) := by
  unfold pyFloat?
  have hne : (mkCod n).data ≠ [] := by
    intro h
    have := mkCod_length n
    rw [h] at this
    simp at this
  rw [show pyFloatChars (mkCod n).data = some ((digitsToNat (mkCod n).data : ℚ)) from
    pyFloatChars_digits hne (mkCod_digits n)]
  rw [mkCod_digitsToNat]

theorem pyStrip_mkCod (n : ℕ) : pyStrip (mkCod n) = mkCod n := by
  unfold pyStrip
  rw [stripWs_eq_self (fun c hc => isDigit_not_ws (mkCod_digits n c hc))]

theorem validar_mkCod {n : ℕ} (h : 0 < n) : validar_codigo (mkCod n) = true := by
  unfold validar_codigo
  rw [pyStrip_mkCod]
  have hlen := mkCod_length n
  have hne : ∀ s : String, s.data.length < 8 → ¬ mkCod n = s := by
    intro s hs heq
    rw [heq] at hlen
    omega
  rw [if_neg ?hblack]
  case hblack =>
    push_neg
    refine ⟨hne "" (by decide), hne "0" (by decide), ?_, hne "nan" (by decide),
      hne "#N/A" (by decide), hne "N/A" (by decide)⟩
    intro heq
    have := mkCod_digitsToNat n
    rw [heq] at this
    have : (0 : ℕ) = n := by
      rw [← this]
      decide
    omega
  rw [pyFloat_mkCod]
  show decide (0 < pyTrunc ((n : ℚ))) = true
  rw [pyTrunc_natCast]
  simpa using h

theorem intOfCode_mkCod (n : ℕ) : intOfCode (mkCod n) = n := by
  unfold intOfCode
  rw [pyFloat_mkCod]
  simp [pyTrunc_natCast]

theorem charFold_snd_mem : ∀ p ∈ upperFoldMap, charFold p.2 = p.2 := by decide

theorem charFold_idem (c : Char) : charFold (charFold c) = charFold c := by
  cases hf : upperFoldMap.find? (fun p => p.1 = c) with
  | none =>
    have h1 : charFold c = c := by unfold charFold; rw [hf]
    rw [h1]
    exact h1
  | some p =>
    have h1 : charFold c = p.2 := by unfold charFold; rw [hf]
    rw [h1]
    exact charFold_snd_mem p (List.mem_of_find?_eq_some hf)

theorem wordsAux_good :
    ∀ (l acc : List Char), (∀ c ∈ acc, isWs c = false) →
      ∀ w ∈ wordsAux l acc, w ≠ [] ∧ ∀ c ∈ w, isWs c = false := by
  intro l
  induction l with
  | nil =>
    intro acc hacc w hw
    by_cases h : acc = []
    · simp [wordsAux, h] at hw
    · simp only [wordsAux, if_neg h, List.mem_singleton] at hw
      subst hw
      refine ⟨by simpa using h, ?_⟩
      intro c hc
      exact hacc c (by simpa using hc)
  | cons a t ih =>
    intro acc hacc w hw
    by_cases hws : isWs a = true
    · by_cases h : acc = []
      · simp only [wordsAux, hws, if_true, if_pos h] at hw
        exact ih [] (by simp) w hw
      · simp only [wordsAux, hws, if_true, if_neg h, List.mem_cons] at hw
        rcases hw with hw | hw
        · subst hw
          refine ⟨by simpa using h, ?_⟩
          intro c hc
          exact hacc c (by simpa using hc)
        · exact ih [] (by simp) w hw
    · have ha : isWs a = false := by revert hws; cases isWs a <;> simp
      simp only [wordsAux, ha] at hw
      simp only [Bool.false_eq_true, if_false] at hw
      refine ih (a :: acc) ?_ w hw
      intro c hc
      rcases List.mem_cons.mp hc with hc | hc
      · subst hc; exact ha
      · exact hacc c hc

theorem wordsAux_chars :
    ∀ (l acc : List Char), ∀ w ∈ wordsAux l acc, ∀ c ∈ w, c ∈ l ∨ c ∈ acc := by
  intro l
  induction l with
  | nil =>
    intro acc w hw c hc
    by_cases h : acc = []
    · simp [wordsAux, h] at hw
    · simp only [wordsAux, if_neg h, List.mem_singleton] at hw
      subst hw
      exact Or.inr (by simpa using hc)
  | cons a t ih =>
    intro acc w hw c hc
    by_cases hws : isWs a = true
    · by_cases h : acc = []
      · simp only [wordsAux, hws, if_true, if_pos h] at hw
        rcases ih [] w hw c hc with h2 | h2
        · exact Or.inl (List.mem_cons_of_mem _ h2)
        · simp at h2
      · simp only [wordsAux, hws, if_true, if_neg h, List.mem_cons] at hw
        rcases hw with hw | hw
        · subst hw
          exact Or.inr (by simpa using hc)
        · rcases ih [] w hw c hc with h2 | h2
          · exact Or.inl (List.mem_cons_of_mem _ h2)
          · simp at h2
    · have ha : isWs a = false := by revert hws; cases isWs a <;> simp
      simp only [wordsAux, ha] at hw
      simp only [Bool.false_eq_true, if_false] at hw
      rcases ih (a :: acc) w hw c hc with h2 | h2
      · exact Or.inl (List.mem_cons_of_mem _ h2)
      · rcases List.mem_cons.mp h2 with h2 | h2
        · exact Or.inl (by simp [h2])
        · exact Or.inr h2

theorem wordsAux_append_word :
    ∀ (w l acc : List Char), (∀ c ∈ w, isWs c = false) →
      wordsAux (w ++ l) acc = wordsAux l (w.reverse ++ acc) := by
  intro w
  induction w with
  | nil => intro l acc _; simp
  | cons a w' ih =>
    intro l acc h
    have ha : isWs a = false := h a (by simp)
    have : (a :: w') ++ l = a :: (w' ++ l) := rfl
    rw [this]
    simp only [wordsAux, ha, Bool.false_eq_true, if_false]
    rw [ih l (a :: acc) (fun c hc => h c (by simp [hc]))]
    have hl : w'.reverse ++ (a :: acc) = (a :: w').reverse ++ acc := by simp
    rw [hl]

theorem joinWords_cons_cons (w v : List Char) (ws : List (List Char)) :
    joinWords (w :: v :: ws) = w ++ ' ' :: joinWords (v :: ws) := rfl

theorem wordsOf_joinWords :
    ∀ ws : List (List Char),
      (∀ w ∈ ws, w ≠ [] ∧ ∀ c ∈ w, isWs c = false) →
      wordsOf (joinWords ws) = ws := by
  intro ws
  induction ws with
  | nil => intro _; rfl
  | cons w ws' ih =>
    intro h
    obtain ⟨hwne, hwch⟩ := h w (by simp)
    cases ws' with
    | nil =>
      show wordsAux (joinWords [w]) [] = [w]
      have : joinWords [w] = w ++ [] := by simp [joinWords]
      rw [this, wordsAux_append_word w [] [] hwch]
      have hrne : w.reverse ++ [] ≠ [] := by simpa using hwne
      simp only [wordsAux, if_neg hrne]
      simp
    | cons v ws'' =>
      show wordsAux (joinWords (w :: v :: ws'')) [] = w :: v :: ws''
      rw [joinWords_cons_cons, wordsAux_append_word w (' ' :: joinWords (v :: ws'')) [] hwch]
      have hws : isWs ' ' = true := by decide
      have hrne : w.reverse ++ [] ≠ [] := by simpa using hwne
      simp only [wordsAux, hws, if_true, if_neg hrne]
      have hrr : (w.reverse ++ []).reverse = w := by simp
      rw [hrr]
      have hih := ih (fun u hu => h u (by simp [hu]))
      have hwz : wordsAux (joinWords (v :: ws'')) [] = wordsOf (joinWords (v :: ws'')) := rfl
      rw [hwz, hih]

theorem map_fix {l : List Char} {f : Char → Char} (h : ∀ c ∈ l, f c = c) :
    l.map f = l := by
  induction l with
  | nil => rfl
  | cons a t ih =>
    rw [List.map_cons, h a (by simp), ih (fun c hc => h c (by simp [hc]))]

theorem joinWords_chars :
    ∀ ws : List (List Char), ∀ c ∈ joinWords ws, c = ' ' ∨ ∃ w ∈ ws, c ∈ w := by
  intro ws
  induction ws with
  | nil => intro c hc; simp [joinWords] at hc
  | cons w ws' ih =>
    intro c hc
    cases ws' with
    | nil =>
      refine Or.inr ⟨w, by simp, ?_⟩
      simpa [joinWords] using hc
    | cons v ws'' =>
      rw [joinWords_cons_cons] at hc
      rcases List.mem_append.mp hc with hc | hc
      · exact Or.inr ⟨w, by simp, hc⟩
      · rcases List.mem_cons.mp hc with hc | hc
        · exact Or.inl hc
        · rcases ih c hc with hc | ⟨u, hu, hcu⟩
          · exact Or.inl hc
          · exact Or.inr ⟨u, by simp [hu], hcu⟩

theorem dropWhile_eq_self_of_all {p : Char → Bool} :
    ∀ {l : List Char}, (∀ c ∈ l, p c = false) → l.dropWhile p = l := by
  intro l h
  cases l with
  | nil => rfl
  | cons a t => exact dropWhile_eq_self_of_head (h a (by simp))

theorem joinWords_ne_nil {ws : List (List Char)} (hne : ws ≠ [])
    (h : ∀ w ∈ ws, w ≠ [] ∧ ∀ c ∈ w, isWs c = false) : joinWords ws ≠ [] := by
  cases ws with
  | nil => exact absurd rfl hne
  | cons w ws' =>
    obtain ⟨hwne, _⟩ := h w (by simp)
    cases ws' with
    | nil => simpa [joinWords] using hwne
    | cons v ws'' =>
      rw [joinWords_cons_cons]
      intro hcontra
      exact hwne (List.append_eq_nil.mp hcontra).1

theorem head_not_ws_of_dropWhile_eq_self {l : List Char} (hne : l ≠ [])
    (h : l.dropWhile isWs = l) : ∃ a t, l = a :: t ∧ isWs a = false := by
  cases l with
  | nil => exact absurd rfl hne
  | cons a t =>
    refine ⟨a, t, rfl, ?_⟩
    by_contra hcon
    have ha : isWs a = true := by revert hcon; cases isWs a <;> simp
    rw [List.dropWhile_cons, if_pos (by simp [ha])] at h
    have hsl := (List.dropWhile_sublist (l := t) isWs).length_le
    have h2 := congrArg List.length h
    simp at h2
    omega

theorem dropWhile_joinWords {ws : List (List Char)}
    (h : ∀ w ∈ ws, w ≠ [] ∧ ∀ c ∈ w, isWs c = false) :
    (joinWords ws).dropWhile isWs = joinWords ws := by
  cases ws with
  | nil => rfl
  | cons w ws' =>
    obtain ⟨hwne, hwch⟩ := h w (by simp)
    obtain ⟨a, t, hw, -⟩ := head_not_ws_of_dropWhile_eq_self hwne
      (dropWhile_eq_self_of_all (fun c hc => hwch c hc))
    have ha : isWs a = false := hwch a (by simp [hw])
    cases ws' with
    | nil =>
      show (joinWords [w]).dropWhile isWs = joinWords [w]
      have : joinWords [w] = w := rfl
      rw [this, hw]
      exact dropWhile_eq_self_of_head ha
    | cons v ws'' =>
      rw [joinWords_cons_cons, hw]
      exact dropWhile_eq_self_of_head ha

theorem rev_dropWhile_joinWords :
    ∀ ws : List (List Char),
      (∀ w ∈ ws, w ≠ [] ∧ ∀ c ∈ w, isWs c = false) →
      (joinWords ws).reverse.dropWhile isWs = (joinWords ws).reverse := by
  intro ws
  induction ws with
  | nil => intro _; rfl
  | cons w ws' ih =>
    intro h
    obtain ⟨hwne, hwch⟩ := h w (by simp)
    cases ws' with
    | nil =>
      show (joinWords [w]).reverse.dropWhile isWs = (joinWords [w]).reverse
      have hjw : joinWords [w] = w := rfl
      rw [hjw]
      refine dropWhile_eq_self_of_all ?_
      intro c hc
      exact hwch c (by simpa using hc)
    | cons v ws'' =>
      have hgood : ∀ u ∈ v :: ws'', u ≠ [] ∧ ∀ c ∈ u, isWs c = false :=
        fun u hu => h u (by simp [hu])
      have hJne : joinWords (v :: ws'') ≠ [] := joinWords_ne_nil (by simp) hgood
      have hJrne : (joinWords (v :: ws'')).reverse ≠ [] := by simpa using hJne
      obtain ⟨a, t, hJr, ha⟩ := head_not_ws_of_dropWhile_eq_self hJrne (ih hgood)
      rw [joinWords_cons_cons, List.reverse_append, List.reverse_cons, List.append_assoc, hJr]
      exact dropWhile_eq_self_of_head ha

theorem stripWs_joinWords {ws : List (List Char)}
    (h : ∀ w ∈ ws, w ≠ [] ∧ ∀ c ∈ w, isWs c = false) :
    stripWs (joinWords ws) = joinWords ws := by
  unfold stripWs
  rw [dropWhile_joinWords h, rev_dropWhile_joinWords ws h, List.reverse_reverse]

theorem normalizar_texto_fix (s : String) :
    normalizar_texto (normalizar_texto s) = normalizar_texto s := by
  unfold normalizar_texto
  have hgood : ∀ w ∈ wordsOf ((stripWs s.data).map charFold),
      w ≠ [] ∧ ∀ c ∈ w, isWs c = false :=
    fun w hw => wordsAux_good _ [] (by simp) w hw
  have hdata : (String.mk (joinWords (wordsOf ((stripWs s.data).map charFold)))).data =
      joinWords (wordsOf ((stripWs s.data).map charFold)) := rfl
  rw [hdata]
  rw [stripWs_joinWords hgood]
  have hmapfix : (joinWords (wordsOf ((stripWs s.data).map charFold))).map charFold =
      joinWords (wordsOf ((stripWs s.data).map charFold)) := by
    refine map_fix ?_
    intro c hc
    rcases joinWords_chars _ c hc with hc | ⟨w, hw, hcw⟩
    · subst hc; decide
    · rcases wordsAux_chars _ [] w hw c hcw with hcu | hcu
      · rcases List.mem_map.mp hcu with ⟨a, -, ha⟩
        rw [← ha, charFold_idem]
      · simp at hcu
  rw [hmapfix]
  rw [wordsOf_joinWords _ hgood]

theorem dropWhile_idem (p : Char → Bool) :
    ∀ l : List Char, ((l.dropWhile p).dropWhile p) = l.dropWhile p := by
  intro l
  induction l with
  | nil => rfl
  | cons a t ih =>
    by_cases h : p a = true
    · rw [List.dropWhile_cons, if_pos (by simp [h])]
      exact ih
    · have ha : p a = false := by revert h; cases p a <;> simp
      rw [List.dropWhile_cons, if_neg (by simp [ha])]
      rw [dropWhile_eq_self_of_head ha]

theorem dropWhile_eq_self_append {u v : List Char}
    (h : ((u ++ v).dropWhile isWs) = u ++ v) : u.dropWhile isWs = u := by
  cases u with
  | nil => rfl
  | cons a u' =>
    have h2 : ((a :: (u' ++ v)).dropWhile isWs) = a :: (u' ++ v) := h
    obtain ⟨a', t', heq, ha⟩ := head_not_ws_of_dropWhile_eq_self (by simp) h2
    have haa : a = a' := by injection heq
    exact dropWhile_eq_self_of_head (haa ▸ ha)

theorem stripWs_idem (l : List Char) : stripWs (stripWs l) = stripWs l := by
  have hm : (l.dropWhile isWs).dropWhile isWs = l.dropWhile isWs := dropWhile_idem isWs l
  have hr : (((l.dropWhile isWs).reverse.dropWhile isWs).dropWhile isWs) =
      (l.dropWhile isWs).reverse.dropWhile isWs := dropWhile_idem isWs _
  have hsplit : (l.dropWhile isWs).reverse.takeWhile isWs ++
      (l.dropWhile isWs).reverse.dropWhile isWs = (l.dropWhile isWs).reverse :=
    List.takeWhile_append_dropWhile _ _
  have hm2 : l.dropWhile isWs =
      ((l.dropWhile isWs).reverse.dropWhile isWs).reverse ++
        ((l.dropWhile isWs).reverse.takeWhile isWs).reverse := by
    rw [← List.reverse_append, hsplit, List.reverse_reverse]
  have hfront : (((l.dropWhile isWs).reverse.dropWhile isWs).reverse).dropWhile isWs =
      ((l.dropWhile isWs).reverse.dropWhile isWs).reverse := by
    refine dropWhile_eq_self_append (v := ((l.dropWhile isWs).reverse.takeWhile isWs).reverse) ?_
    rw [← hm2]
    exact hm
  show stripWs (((l.dropWhile isWs).reverse.dropWhile isWs).reverse) =
    ((l.dropWhile isWs).reverse.dropWhile isWs).reverse
  unfold stripWs
  rw [hfront, List.reverse_reverse, hr]

theorem pyFloat_pyStrip (s : String) : pyFloat? (pyStrip s) = pyFloat? s := by
  show pyFloatChars (stripWs s.data) = pyFloatChars s.data
  unfold pyFloatChars
  rw [stripWs_idem]

theorem intOfCode_pos {s : String} (h : validar_codigo s = true) : 0 < intOfCode s := by
  simp only [validar_codigo] at h
  split at h
  · exact absurd h (by simp)
  · cases hp : pyFloat? (pyStrip s) with
    | none => rw [hp] at h; simp at h
    | some q =>
      rw [hp] at h
      simp only [decide_eq_true_eq] at h
      unfold intOfCode
      rw [← pyFloat_pyStrip s, hp]
      simp only [Option.map_some', Option.getD_some]
      omega

theorem lookupA_insertOv_cases {β : Type} {k k' : String} {v e : β}
    {m : List (String × β)} (h : lookupA (insertOv k v m) k' = some e) :
    (k' = k ∧ e = v) ∨ lookupA m k' = some e := by
  by_cases hk : k' = k
  · rw [hk, lookupA_insertOv_self k v m] at h
    refine Or.inl ⟨hk, ?_⟩
    injection h with h2
    exact h2.symm
  · rw [lookupA_insertOv_ne k k' v hk m] at h
    exact Or.inr h

theorem mapaConceptoValido_insert {m : List (String × EntradaConcepto)}
    {k : String} {e : EntradaConcepto} (hm : mapaConceptoValido m)
    (hk : normalizar_texto k = k)
    (he : codBienFormado e.cod_desde ∧ codBienFormado e.cod_hasta) :
    mapaConceptoValido (insertOv k e m) := by
  intro k' e' hl
  rcases lookupA_insertOv_cases hl with ⟨hk', he'⟩ | hl
  · subst hk'
    subst he'
    exact ⟨he, hk⟩
  · exact hm k' e' hl

theorem mapaCodOsValido_insert {m : List (String × EntradaCodOs)}
    {k : String} {e : EntradaCodOs} (hm : mapaCodOsValido m)
    (he : codBienFormado e.cod_desde ∧ codBienFormado e.cod_hasta) :
    mapaCodOsValido (insertOv k e m) := by
  intro k' e' hl
  rcases lookupA_insertOv_cases hl with ⟨hk', he'⟩ | hl
  · subst he'
    exact he
  · exact hm k' e' hl

theorem filaTraductor_valido (acc : Traductores) (fila : List Cell)
    (h : traductoresValidos acc) : traductoresValidos (filaTraductor acc fila) := by
  by_cases hval : validar_codigo (codDesdeFila fila) = true ∧
      validar_codigo (codHastaFila fila) = true
  · simp only [filaTraductor, if_neg (not_not_intro hval)]
    have hdesde : codBienFormado (mkCod (intOfCode (codDesdeFila fila))) :=
      ⟨_, intOfCode_pos hval.1, rfl⟩
    have hhasta : codBienFormado (mkCod (intOfCode (codHastaFila fila))) :=
      ⟨_, intOfCode_pos hval.2, rfl⟩
    by_cases hc : conceptoFila fila ≠ ""
    · by_cases ho : codOsFila fila ≠ "" ∧
          codOsFila fila ∉ (["nan", "#N/A", "N/A", ""] : List String)
      · rw [if_pos hc, if_pos ho]
        exact ⟨mapaConceptoValido_insert h.1 (normalizar_texto_fix _) ⟨hdesde, hhasta⟩,
          mapaCodOsValido_insert h.2 ⟨hdesde, hhasta⟩⟩
      · rw [if_pos hc, if_neg ho]
        exact ⟨mapaConceptoValido_insert h.1 (normalizar_texto_fix _) ⟨hdesde, hhasta⟩, h.2⟩
    · by_cases ho : codOsFila fila ≠ "" ∧
          codOsFila fila ∉ (["nan", "#N/A", "N/A", ""] : List String)
      · rw [if_neg hc, if_pos ho]
        exact ⟨h.1, mapaCodOsValido_insert h.2 ⟨hdesde, hhasta⟩⟩
      · rw [if_neg hc, if_neg ho]
        exact h
  · simp only [filaTraductor, if_pos hval]
    exact h

theorem foldl_filaTraductor_valido :
    ∀ (filas : List (List Cell)) (acc : Traductores), traductoresValidos acc →
      traductoresValidos (filas.foldl filaTraductor acc) := by
  intro filas
  induction filas with
  | nil => intro acc h; exact h
  | cons fila resto ih =>
    intro acc h
    exact ih _ (filaTraductor_valido acc fila h)

theorem traductoresValidos_vacio : traductoresValidos ⟨[], []⟩ := by
  constructor
  · intro k e hl; simp [lookupA, List.find?] at hl
  · intro k e hl; simp [lookupA, List.find?] at hl

theorem cargar_traductor_valido {filas : List (List Cell)} {t : Traductores}
    (h : cargar_traductor filas = .ok t) : traductoresValidos t := by
  unfold cargar_traductor at h
  split at h
  · exact absurd h (by simp)
  · have h2 : (if (List.foldl filaTraductor ⟨[], []⟩ filas).por_concepto = [] ∧
        (List.foldl filaTraductor ⟨[], []⟩ filas).por_cod_os = [] then
          (Except.error ProcError.emptyTranslation : Except ProcError Traductores)
        else Except.ok (List.foldl filaTraductor ⟨[], []⟩ filas)) = Except.ok t := h
    split at h2
    · exact absurd h2 (by simp)
    · injection h2 with h3
      rw [← h3]
      exact foldl_filaTraductor_valido filas ⟨[], []⟩ traductoresValidos_vacio

theorem buscar_valido {c os : String} {tc : List (String × EntradaConcepto)}
    {tcos : List (String × EntradaCodOs)} {rng : Rango}
    (htc : mapaConceptoValido tc) (htcos : mapaCodOsValido tcos)
    (h : buscar_en_traductor c os tc tcos = some rng) :
    codBienFormado rng.cod_desde ∧ codBienFormado rng.cod_hasta := by
  simp only [buscar_en_traductor] at h
  split at h
  · rename_i e heq
    injection h with h2
    obtain ⟨⟨hd, hh⟩, -⟩ := htc _ _ heq
    rw [← h2]
    exact ⟨hd, hh⟩
  · split at h
    · rename_i e heq
      injection h with h2
      obtain ⟨hd, hh⟩ := htcos _ _ heq
      rw [← h2]
      exact ⟨hd, hh⟩
    · exact absurd h (by simp)

theorem filaMaestro_valido (df : DFrame) (obra_col : String)
    (tc : List (String × EntradaConcepto)) (tcos : List (String × EntradaCodOs))
    (htc : mapaConceptoValido tc) (htcos : mapaCodOsValido tcos)
    {datos : List (String × Registro)} {fila : List Cell}
    (hd : datosValidos datos) :
    datosValidos (filaMaestro df obra_col tc tcos datos fila) := by
  simp only [filaMaestro]
  split
  · exact hd
  · split
    · exact hd
    · split
      · exact hd
      · rename_i resultado hres
        split
        · exact hd
        · rename_i hval
          intro p hp
          rcases mem_insertOv hp with hp | hp
          · subst hp
            refine ⟨buscar_valido htc htcos hres, rfl⟩
          · exact hd p hp

theorem procesar_valido (df : DFrame) (obra_col : String)
    (tc : List (String × EntradaConcepto)) (tcos : List (String × EntradaCodOs))
    (htc : mapaConceptoValido tc) (htcos : mapaCodOsValido tcos) :
    datosValidos (procesar_maestro_individual df obra_col tc tcos) := by
  unfold procesar_maestro_individual
  have base : datosValidos ([] : List (String × Registro)) := by
    intro p hp
    simp at hp
  generalize hacc : ([] : List (String × Registro)) = acc at base ⊢
  clear hacc
  induction df.rows generalizing acc with
  | nil => exact base
  | cons fila resto ih =>
    rw [List.foldl_cons]
    exact ih _ (filaMaestro_valido df obra_col tc tcos htc htcos base)

theorem perm_insertaDesc (r : FilaSalida) :
    ∀ l : List FilaSalida, (insertaDesc r l).Perm (r :: l) := by
  intro l
  induction l with
  | nil => simp [insertaDesc]
  | cons x t ih =>
    by_cases h : x.importe ≤ r.importe
    · simp [insertaDesc, h]
    · simp only [insertaDesc, if_neg h]
      exact (List.Perm.cons x ih).trans (List.Perm.swap r x t)

theorem perm_ordenaDesc : ∀ l : List FilaSalida, (ordenaDesc l).Perm l := by
  intro l
  induction l with
  | nil => simp [ordenaDesc]
  | cons x t ih =>
    have h1 : ordenaDesc (x :: t) = insertaDesc x (ordenaDesc t) := rfl
    rw [h1]
    exact (perm_insertaDesc x (ordenaDesc t)).trans (List.Perm.cons x ih)

theorem pairwise_insertaDesc (r : FilaSalida) :
    ∀ l : List FilaSalida, l.Pairwise (fun a b => b.importe ≤ a.importe) →
      (insertaDesc r l).Pairwise (fun a b => b.importe ≤ a.importe) := by
  intro l
  induction l with
  | nil => intro _; simp [insertaDesc]
  | cons x t ih =>
    intro h
    rcases List.pairwise_cons.mp h with ⟨hx, ht⟩
    by_cases hle : x.importe ≤ r.importe
    · simp only [insertaDesc, if_pos hle]
      refine List.pairwise_cons.mpr ⟨?_, h⟩
      intro y hy
      rcases List.mem_cons.mp hy with hy | hy
      · subst hy; exact hle
      · exact le_trans (hx y hy) hle
    · simp only [insertaDesc, if_neg hle]
      refine List.pairwise_cons.mpr ⟨?_, ih ht⟩
      intro y hy
      have hy2 : y ∈ r :: t := (perm_insertaDesc r t).mem_iff.mp hy
      rcases List.mem_cons.mp hy2 with hy2 | hy2
      · subst hy2; exact le_of_lt (lt_of_not_le hle)
      · exact hx y hy2

theorem pairwise_ordenaDesc (l : List FilaSalida) :
    (ordenaDesc l).Pairwise (fun a b => b.importe ≤ a.importe) := by
  induction l with
  | nil => simp [ordenaDesc]
  | cons x t ih => exact pairwise_insertaDesc x (ordenaDesc t) ih

theorem quitaDuplicados_filter (k : String × String) :
    ∀ (l : List FilaSalida) (seen : List (String × String)),
      (quitaDuplicados seen l).filter (fun r => claveSalida r = k) =
        (if k ∈ seen then []
         else match l.find? (fun r => claveSalida r = k) with
          | some r => [r]
          | none => []) := by
  intro l
  induction l with
  | nil =>
    intro seen
    by_cases h : k ∈ seen <;> simp [quitaDuplicados, h]
  | cons r t ih =>
    intro seen
    by_cases hseen : claveSalida r ∈ seen
    · simp only [quitaDuplicados, if_pos hseen]
      rw [ih seen]
      by_cases hk : k ∈ seen
      · rw [if_pos hk, if_pos hk]
      · rw [if_neg hk, if_neg hk]
        have hne : ¬ (claveSalida r = k) := by
          intro hcon
          rw [hcon] at hseen
          exact hk hseen
        simp only [List.find?_cons, decide_eq_false hne]
    · simp only [quitaDuplicados, if_neg hseen]
      by_cases hrk : claveSalida r = k
      · simp only [List.filter_cons, decide_eq_true hrk, if_true]
        rw [ih (claveSalida r :: seen)]
        have hk : ¬ k ∈ seen := by rw [← hrk]; exact hseen
        rw [if_neg hk, if_pos (by simp [hrk])]
        simp only [List.find?_cons, decide_eq_true hrk]
      · simp only [List.filter_cons, decide_eq_false hrk, Bool.false_eq_true, if_false]
        rw [ih (claveSalida r :: seen)]
        by_cases hk : k ∈ seen
        · rw [if_pos (by simp [hk]), if_pos hk]
        · rw [if_neg (by
            simp only [List.mem_cons]
            push_neg
            exact ⟨fun h => hrk h.symm, hk⟩), if_neg hk]
          simp only [List.find?_cons, decide_eq_false hrk]

theorem find?_max_sorted {k : String × String} :
    ∀ {s : List FilaSalida} {r' : FilaSalida},
      s.Pairwise (fun a b => b.importe ≤ a.importe) →
      s.find? (fun r => claveSalida r = k) = some r' →
      ∀ x ∈ s, claveSalida x = k → x.importe ≤ r'.importe := by
  intro s
  induction s with
  | nil => intro r' _ hf; simp at hf
  | cons a t ih =>
    intro r' hp hf x hx hxk
    rcases List.pairwise_cons.mp hp with ⟨ha, ht⟩
    by_cases hak : claveSalida a = k
    · simp only [List.find?_cons, decide_eq_true hak] at hf
      injection hf with hf
      subst hf
      rcases List.mem_cons.mp hx with hx | hx
      · subst hx; exact le_refl _
      · exact ha x hx
    · simp only [List.find?_cons, decide_eq_false hak] at hf
      rcases List.mem_cons.mp hx with hx | hx
      · subst hx; exact absurd hxk hak
      · exact ih ht hf x hx hxk

/-- C3 (amended): `determinar_tipo` classifies an amount as "M" below
14,000,000, "C" in [40,000,000, 44,000,000] and "V" otherwise; and
`determinar_concepto`, whenever both range bounds are readable as
integers (an empty bound reading as 0), returns 1 if either bound lies
in [42,000,000, 43,000,000] and otherwise 4 for type "M", 1 for type
"V", 4 for anything else; if either bound fails to parse, the caught
exception makes it return 4 regardless of the type. -/
theorem clasificacion_tipo_concepto :
    (∀ valor : ℚ,
      (valor < 14000000 → determinar_tipo valor = "M") ∧
      (40000000 ≤ valor ∧ valor ≤ 44000000 → determinar_tipo valor = "C") ∧
      (14000000 ≤ valor ∧ (valor < 40000000 ∨ 44000000 < valor) →
        determinar_tipo valor = "V")) ∧
    (∀ cod_desde cod_hasta tipo : String, ∀ d h : ℤ,
      codigoEntero cod_desde = some d → codigoEntero cod_hasta = some h →
      (((42000000 ≤ d ∧ d ≤ 43000000) ∨ (42000000 ≤ h ∧ h ≤ 43000000)) →
        determinar_concepto cod_desde cod_hasta tipo = 1) ∧
      (¬ ((42000000 ≤ d ∧ d ≤ 43000000) ∨ (42000000 ≤ h ∧ h ≤ 43000000)) →
        determinar_concepto cod_desde cod_hasta tipo =
          (if tipo = "M" then 4 else if tipo = "V" then 1 else 4))) ∧
    (∀ cod_desde cod_hasta tipo : String,
      codigoEntero cod_desde = none ∨ codigoEntero cod_hasta = none →
      determinar_concepto cod_desde cod_hasta tipo = 4) := by
  refine ⟨?_, ?_, ?_⟩
  · intro valor
    have hvf : (if valor = 0 then (0 : ℚ) else valor) = valor := by
      split
      · simp_all
      · rfl
    unfold determinar_tipo
    rw [hvf]
    refine ⟨?_, ?_, ?_⟩
    · intro h
      rw [if_pos h]
    · rintro ⟨h1, h2⟩
      rw [if_neg (by linarith), if_pos ⟨h1, h2⟩]
    · rintro ⟨h1, h2⟩
      rw [if_neg (by linarith)]
      rcases h2 with h2 | h2
      · rw [if_neg (by intro hc; linarith [hc.1])]
      · rw [if_neg (by intro hc; linarith [hc.2])]
  · intro cod_desde cod_hasta tipo d h hd hh
    unfold determinar_concepto
    rw [hd, hh]
    constructor
    · intro hr
      simp only [if_pos hr]
    · intro hr
      simp only [if_neg hr]
  · intro cod_desde cod_hasta tipo hnone
    unfold determinar_concepto
    rcases hnone with hn | hn
    · rw [hn]
    · rw [hn]
      cases codigoEntero cod_desde <;> rfl

theorem clasificacion_tipo_concepto_inst :
    determinar_tipo 5000000 = "M" ∧ determinar_tipo 42000000 = "C" ∧
    determinar_tipo 50000000 = "V" ∧
    determinar_concepto "42500000" "00000001" "M" = 1 := by
  obtain ⟨htipo, hconc, -⟩ := clasificacion_tipo_concepto
  refine ⟨(htipo 5000000).1 (by norm_num),
    (htipo 42000000).2.1 ⟨by norm_num, by norm_num⟩,
    (htipo 50000000).2.2 ⟨by norm_num, Or.inr (by norm_num)⟩, ?_⟩
  exact (hconc "42500000" "00000001" "M" 42500000 1 (by decide) (by decide)).1
    (Or.inl ⟨by norm_num, by norm_num⟩)

/-- C3 counterexample: the claim as stated demands concept code 1
whenever either bound read as an integer lies in the special range,
regardless of type, but an unparsable companion bound makes the source
hit its `except` branch and return 4 (here with the other bound
42,500,000 inside [42,000,000, 43,000,000] and type "V", where the
claim would give 1 on both counts). -/
theorem determinar_concepto_excepcion_contra :
    codigoEntero "42500000" = some 42500000 ∧
    (42000000 ≤ (42500000 : ℤ) ∧ (42500000 : ℤ) ≤ 43000000) ∧
    codigoEntero "x" = none ∧
    determinar_concepto "x" "42500000" "V" = 4 ∧
    ¬ determinar_concepto "x" "42500000" "V" = 1 := by decide

/-- C4 (amended): `limpiar_importe_raw` returns 0 on a missing cell, on
parse failure and on a parsed value ≤ 0, is never negative, and parses
the normalized string (`limpiarNormaliza`: currency symbol and spaces
stripped, then one-comma-with-period means periods are thousands
separators, otherwise commas are removed); so "1.234,56" → 1234.56,
"$ 500" → 500.0, "1234,56" → 123456.0 (a lone comma is a thousands
separator), and negative or non-numeric input → 0.0. -/
theorem limpiar_importe_caracterizacion :
    (∀ v : Cell, 0 ≤ limpiar_importe_raw v) ∧
    limpiar_importe_raw none = 0 ∧
    (∀ s : String, pyFloatChars (limpiarNormaliza s) = none →
      limpiar_importe_raw (some s) = 0) ∧
    (∀ (s : String) (q : ℚ), pyFloatChars (limpiarNormaliza s) = some q → q ≤ 0 →
      limpiar_importe_raw (some s) = 0) ∧
    (∀ (s : String) (q : ℚ), pyFloatChars (limpiarNormaliza s) = some q → 0 < q →
      limpiar_importe_raw (some s) = q) ∧
    limpiar_importe_raw (some "1.234,56") = 1234.56 ∧
    limpiar_importe_raw (some "1234,56") = 123456 ∧
    limpiar_importe_raw (some "$ 500") = 500 ∧
    limpiar_importe_raw (some "-5") = 0 ∧
    limpiar_importe_raw (some "abc") = 0 := by
  have hparse : ∀ (s : String) (q : ℚ), pyFloatChars (limpiarNormaliza s) = some q →
      0 < q → limpiar_importe_raw (some s) = q := by
    intro s q hq hpos
    simp only [limpiar_importe_raw, hq]
    rw [if_pos hpos]
  have hfrac : limpiar_importe_raw (some "1.234,56") = 1234.56 := by
    have h : limpiar_importe_raw (some "1.234,56") = mkRat 123456 100 := by decide
    rw [h, Rat.mkRat_eq_div]
    norm_num
  refine ⟨?_, rfl, ?_, ?_, hparse, hfrac, by decide, by decide, by decide, by decide⟩
  · intro v
    cases v with
    | none => exact le_refl (0 : ℚ)
    | some s0 =>
      simp only [limpiar_importe_raw]
      split
      · split
        · rename_i hpos; exact le_of_lt hpos
        · exact le_refl (0 : ℚ)
      · exact le_refl (0 : ℚ)
  · intro s hnone
    simp only [limpiar_importe_raw, hnone]
  · intro s q hq hle
    simp only [limpiar_importe_raw, hq]
    rw [if_neg (by exact fun hc => absurd hle (not_le.mpr hc))]

theorem limpiar_importe_caracterizacion_inst :
    limpiar_importe_raw (some "abc") = 0 ∧ limpiar_importe_raw (some "-5") = 0 := by
  obtain ⟨-, -, hfail, hneg, -, -, -, -, -, -⟩ := limpiar_importe_caracterizacion
  exact ⟨hfail "abc" (by decide), hneg "-5" (-5) (by decide) (by norm_num)⟩

/-- C4 counterexample: the claim asserts `"1234,56"` parses to 1234.56,
but with one comma and no period the source removes the comma as a
thousands separator and parses 123456.0. -/
theorem limpiar_importe_coma_contra :
    limpiar_importe_raw (some "1234,56") = 123456 ∧
    ¬ limpiar_importe_raw (some "1234,56") = 1234.56 := by
  have h : limpiar_importe_raw (some "1234,56") = 123456 := by decide
  refine ⟨h, ?_⟩
  rw [h]
  norm_num

/-- C8: after packaging, the orchestrator raises the taxonomy's
`IntegrityError` exactly when the archive file is missing or smaller
than the 100-byte threshold, and otherwise returns the archive path
with the summary; in particular a zero-byte archive fails rather than
returning a summary. -/
theorem verificar_zip_integridad :
    ∀ (zip_existe : Bool) (zip_tam : ℕ) (zip_path : String) (info : InfoProceso),
      ((zip_existe = false ∨ zip_tam < 100) →
        verificar_zip zip_existe zip_tam zip_path info = .error .integrity) ∧
      ((zip_existe = true ∧ 100 ≤ zip_tam) →
        verificar_zip zip_existe zip_tam zip_path info = .ok (zip_path, info)) ∧
      verificar_zip true 0 zip_path info = .error .integrity := by
  intro zip_existe zip_tam zip_path info
  refine ⟨?_, ?_, by unfold verificar_zip; rw [if_pos (by omega)]⟩
  · intro h
    unfold verificar_zip
    rw [if_pos ?_]
    rcases h with h | h
    · subst h; exact Or.inl (by simp)
    · exact Or.inr h
  · rintro ⟨h1, h2⟩
    unfold verificar_zip
    subst h1
    rw [if_neg (by push_neg; exact ⟨by simp, by omega⟩)]

theorem verificar_zip_integridad_inst :
    verificar_zip false 500 "salida.zip" ⟨0, 0, false, false, "completo"⟩ =
      .error .integrity ∧
    verificar_zip true 0 "salida.zip" ⟨0, 0, false, false, "completo"⟩ =
      .error .integrity ∧
    verificar_zip true 500 "salida.zip" ⟨1, 0, false, false, "completo"⟩ =
      .ok ("salida.zip", ⟨1, 0, false, false, "completo"⟩) := by
  refine ⟨(verificar_zip_integridad false 500 "salida.zip" _).1 (Or.inl rfl),
    (verificar_zip_integridad true 0 "salida.zip" _).2.2,
    (verificar_zip_integridad true 500 "salida.zip" _).2.1 ⟨rfl, by omega⟩⟩

/-- C6: the final deduplication of the output builder keys records by
the pair (coddesde, codhasta); whenever records share that key, exactly
one record with that key survives, it is one of the input records, and
its amount is the numerical maximum over the group — so when the
largest amount is unique, exactly that record survives. -/
theorem dedup_final_max (rs : List FilaSalida) (k : String × String)
    (hk : ∃ r ∈ rs, claveSalida r = k) :
    ∃ r', (dedup_final rs).filter (fun r => claveSalida r = k) = [r'] ∧
      r' ∈ rs ∧ claveSalida r' = k ∧
      (∀ x ∈ rs, claveSalida x = k → x.importe ≤ r'.importe) ∧
      (∀ x ∈ rs, claveSalida x = k →
        (∀ y ∈ rs, claveSalida y = k → y.importe ≤ x.importe) →
        x.importe = r'.importe) := by
  have hperm := perm_ordenaDesc rs
  have hpair := pairwise_ordenaDesc rs
  obtain ⟨r0, hr0, hr0k⟩ := hk
  have hr0s : r0 ∈ ordenaDesc rs := hperm.mem_iff.mpr hr0
  obtain ⟨r', hf⟩ : ∃ r',
      (ordenaDesc rs).find? (fun r => claveSalida r = k) = some r' := by
    cases hf : (ordenaDesc rs).find? (fun r => claveSalida r = k) with
    | none =>
      have := List.find?_eq_none.mp hf r0 hr0s
      simp [hr0k] at this
    | some r' => exact ⟨r', rfl⟩
  refine ⟨r', ?_, ?_, ?_, ?_, ?_⟩
  · have hchar := quitaDuplicados_filter k (ordenaDesc rs) []
    unfold dedup_final
    rw [hchar, if_neg (by simp), hf]
  · exact hperm.mem_iff.mp (List.mem_of_find?_eq_some hf)
  · have := List.find?_some hf
    simpa using this
  · intro x hx hxk
    exact find?_max_sorted hpair hf x (hperm.mem_iff.mpr hx) hxk
  · intro x hx hxk hmax
    have h1 : x.importe ≤ r'.importe :=
      find?_max_sorted hpair hf x (hperm.mem_iff.mpr hx) hxk
    have h2 : r'.importe ≤ x.importe := by
      refine hmax r' (hperm.mem_iff.mp (List.mem_of_find?_eq_some hf)) ?_
      have := List.find?_some hf
      simpa using this
    exact le_antisymm h1 h2

theorem dedup_final_max_inst :
    (∃ r', (dedup_final
        [⟨"1", "00000100", "00000200", "4", 100, "M", "", "", "0", "D"⟩,
         ⟨"1", "00000100", "00000200", "4", 50, "M", "", "", "0", "D"⟩]).filter
          (fun r => claveSalida r = ("00000100", "00000200")) = [r'] ∧
      r' ∈ [⟨"1", "00000100", "00000200", "4", 100, "M", "", "", "0", "D"⟩,
            ⟨"1", "00000100", "00000200", "4", 50, "M", "", "", "0", "D"⟩] ∧
      claveSalida r' = ("00000100", "00000200") ∧
      (∀ x ∈ [⟨"1", "00000100", "00000200", "4", 100, "M", "", "", "0", "D"⟩,
              ⟨"1", "00000100", "00000200", "4", 50, "M", "", "", "0", "D"⟩],
        claveSalida x = ("00000100", "00000200") → x.importe ≤ r'.importe) ∧
      (∀ x ∈ [⟨"1", "00000100", "00000200", "4", 100, "M", "", "", "0", "D"⟩,
              ⟨"1", "00000100", "00000200", "4", 50, "M", "", "", "0", "D"⟩],
        claveSalida x = ("00000100", "00000200") →
        (∀ y ∈ [⟨"1", "00000100", "00000200", "4", 100, "M", "", "", "0", "D"⟩,
                ⟨"1", "00000100", "00000200", "4", 50, "M", "", "", "0", "D"⟩],
          claveSalida y = ("00000100", "00000200") → y.importe ≤ x.importe) →
        x.importe = r'.importe)) ∧
    dedup_final
        [⟨"1", "00000100", "00000200", "4", 100, "M", "", "", "0", "D"⟩,
         ⟨"1", "00000100", "00000200", "4", 50, "M", "", "", "0", "D"⟩] =
      [⟨"1", "00000100", "00000200", "4", 100, "M", "", "", "0", "D"⟩] :=
  ⟨dedup_final_max _ _ ⟨⟨"1", "00000100", "00000200", "4", 100, "M", "", "", "0", "D"⟩,
    by simp, by decide⟩, by decide⟩

theorem filaTraductor_skip {acc : Traductores} {fila : List Cell}
    (h : filaTraductorValida fila = false) : filaTraductor acc fila = acc := by
  simp only [filaTraductor]
  rw [if_pos ?_]
  intro hcon
  rw [filaTraductorValida, hcon.1, hcon.2] at h
  simp at h

/-- C5 (amended): for a nonempty translator table the loader raises
`EmptyTranslationError` exactly when both derived indices are empty
after processing all rows; every stored range bound has the canonical
form `mkCod n` (the decimal rendering of a positive integer zero-padded
to at least 8 digits — exactly 8 only when the integer has at most 8
digits); a row failing `validar_codigo` on either bound is skipped
without effect; and a surviving row overwrites the binding of its
normalized-concept key (and of its payer-code key) while leaving all
other keys untouched. -/
theorem cargar_traductor_caracterizacion (filas : List (List Cell))
    (hne : filas ≠ []) :
    (cargar_traductor filas = .error .emptyTranslation ↔
      (filas.foldl filaTraductor ⟨[], []⟩).por_concepto = [] ∧
      (filas.foldl filaTraductor ⟨[], []⟩).por_cod_os = []) ∧
    (∀ t : Traductores, cargar_traductor filas = .ok t →
      (∀ k e, lookupA t.por_concepto k = some e →
        codBienFormado e.cod_desde ∧ codBienFormado e.cod_hasta) ∧
      (∀ k e, lookupA t.por_cod_os k = some e →
        codBienFormado e.cod_desde ∧ codBienFormado e.cod_hasta)) ∧
    (∀ (acc : Traductores) (fila : List Cell), filaTraductorValida fila = false →
      filaTraductor acc fila = acc) ∧
    (∀ (acc : Traductores) (fila : List Cell), filaTraductorValida fila = true →
      (conceptoFila fila ≠ "" →
        lookupA (filaTraductor acc fila).por_concepto (conceptoFila fila) =
          some ⟨codOsFila fila, mkCod (intOfCode (codDesdeFila fila)),
            mkCod (intOfCode (codHastaFila fila))⟩) ∧
      (∀ k, k ≠ conceptoFila fila →
        lookupA (filaTraductor acc fila).por_concepto k = lookupA acc.por_concepto k) ∧
      (codOsFila fila ∉ (["nan", "#N/A", "N/A", ""] : List String) →
        lookupA (filaTraductor acc fila).por_cod_os (codOsFila fila) =
          some ⟨conceptoFila fila, mkCod (intOfCode (codDesdeFila fila)),
            mkCod (intOfCode (codHastaFila fila))⟩) ∧
      (∀ k, k ≠ codOsFila fila →
        lookupA (filaTraductor acc fila).por_cod_os k = lookupA acc.por_cod_os k)) := by
  refine ⟨?_, ?_, fun acc fila h => filaTraductor_skip h, ?_⟩
  · unfold cargar_traductor
    rw [if_neg hne]
    by_cases hvac : (filas.foldl filaTraductor ⟨[], []⟩).por_concepto = [] ∧
        (filas.foldl filaTraductor ⟨[], []⟩).por_cod_os = []
    · constructor
      · intro _; exact hvac
      · intro _
        exact if_pos hvac
    · constructor
      · intro hcon
        have h2 : (if (filas.foldl filaTraductor ⟨[], []⟩).por_concepto = [] ∧
            (filas.foldl filaTraductor ⟨[], []⟩).por_cod_os = [] then
              (Except.error ProcError.emptyTranslation : Except ProcError Traductores)
            else Except.ok (filas.foldl filaTraductor ⟨[], []⟩)) =
            Except.error ProcError.emptyTranslation := hcon
        rw [if_neg hvac] at h2
        exact absurd h2 (by simp)
      · intro hcon
        exact absurd hcon hvac
  · intro t ht
    obtain ⟨h1, h2⟩ := cargar_traductor_valido ht
    exact ⟨fun k e hl => (h1 k e hl).1, fun k e hl => h2 k e hl⟩
  · intro acc fila hval
    have hval2 : validar_codigo (codDesdeFila fila) = true ∧
        validar_codigo (codHastaFila fila) = true := by
      rw [filaTraductorValida, Bool.and_eq_true] at hval
      exact hval
    simp only [filaTraductor, if_neg (not_not_intro hval2)]
    by_cases hc : conceptoFila fila ≠ ""
    · by_cases ho : codOsFila fila ≠ "" ∧
          codOsFila fila ∉ (["nan", "#N/A", "N/A", ""] : List String)
      · rw [if_pos hc, if_pos ho]
        refine ⟨fun _ => lookupA_insertOv_self _ _ _,
          fun k hk => lookupA_insertOv_ne _ k _ hk _,
          fun _ => lookupA_insertOv_self _ _ _,
          fun k hk => lookupA_insertOv_ne _ k _ hk _⟩
      · rw [if_pos hc, if_neg ho]
        refine ⟨fun _ => lookupA_insertOv_self _ _ _,
          fun k hk => lookupA_insertOv_ne _ k _ hk _, ?_, fun k hk => rfl⟩
        intro hblack
        exact absurd ⟨fun hvacia => hblack (by simp [hvacia]), hblack⟩ ho
    · by_cases ho : codOsFila fila ≠ "" ∧
          codOsFila fila ∉ (["nan", "#N/A", "N/A", ""] : List String)
      · rw [if_neg hc, if_pos ho]
        exact ⟨fun hcon => absurd hcon hc, fun k hk => rfl,
          fun _ => lookupA_insertOv_self _ _ _,
          fun k hk => lookupA_insertOv_ne _ k _ hk _⟩
      · rw [if_neg hc, if_neg ho]
        refine ⟨fun hcon => absurd hcon hc, fun k hk => rfl, ?_, fun k hk => rfl⟩
        intro hblack
        exact absurd ⟨fun hvacia => hblack (by simp [hvacia]), hblack⟩ ho

theorem cargar_traductor_caracterizacion_inst :
    (cargar_traductor [[some "Concepto X", some "77", some "0", some "5"]] =
        .error .emptyTranslation ↔
      (([[some "Concepto X", some "77", some "0", some "5"]] :
          List (List Cell)).foldl filaTraductor ⟨[], []⟩).por_concepto = [] ∧
      (([[some "Concepto X", some "77", some "0", some "5"]] :
          List (List Cell)).foldl filaTraductor ⟨[], []⟩).por_cod_os = []) ∧
    filaTraductor ⟨[], []⟩ [some "Concepto X", some "77", some "0", some "5"] =
      (⟨[], []⟩ : Traductores) ∧
    cargar_traductor [[some "Concepto X", some "77", some "0", some "5"]] =
      .error .emptyTranslation :=
  ⟨(cargar_traductor_caracterizacion
      [[some "Concepto X", some "77", some "0", some "5"]] (by decide)).1,
    (cargar_traductor_caracterizacion
      [[some "Concepto X", some "77", some "0", some "5"]] (by decide)).2.2.1
      ⟨[], []⟩ [some "Concepto X", some "77", some "0", some "5"] (by decide),
    by decide⟩

/-- C5 counterexample: a row with nine-digit range bounds survives
validation and is stored with nine digits, not as an "8-digit
zero-padded decimal string" (`zfill(8)` only pads, it never shortens);
and the empty table raises the empty-table error before row processing,
not `EmptyTranslationError`, even though both indices are empty then. -/
theorem cargar_traductor_nueve_digitos_contra :
    (∃ t : Traductores,
      cargar_traductor [[some "Concepto X", some "77", some "123456789", some "123456789"]] =
        .ok t ∧
      lookupA t.por_concepto "CONCEPTO X" = some ⟨"77", "123456789", "123456789"⟩ ∧
      ¬ ("123456789" : String).length = 8) ∧
    cargar_traductor [] = .error .emptyData ∧
    ¬ cargar_traductor [] = .error .emptyTranslation :=
  ⟨⟨⟨[("CONCEPTO X", ⟨"77", "123456789", "123456789"⟩)],
      [("77", ⟨"CONCEPTO X", "123456789", "123456789"⟩)]⟩,
    by decide, by decide, by decide⟩, by decide, by decide⟩

theorem filaMaestro_claves (df : DFrame) (obra_col : String)
    (tc : List (String × EntradaConcepto)) (tcos : List (String × EntradaCodOs))
    {datos : List (String × Registro)} {fila : List Cell}
    (hd : ∀ p ∈ datos, p.1 = normalizar_texto p.2.concepto_original ++ "_" ++ p.2.cod_os) :
    ∀ p ∈ filaMaestro df obra_col tc tcos datos fila,
      p.1 = normalizar_texto p.2.concepto_original ++ "_" ++ p.2.cod_os := by
  simp only [filaMaestro]
  split
  · exact hd
  · split
    · exact hd
    · split
      · exact hd
      · split
        · exact hd
        · intro p hp
          rcases mem_insertOv hp with hp | hp
          · subst hp
            rfl
          · exact hd p hp

theorem procesar_claves (df : DFrame) (obra_col : String)
    (tc : List (String × EntradaConcepto)) (tcos : List (String × EntradaCodOs)) :
    ∀ p ∈ procesar_maestro_individual df obra_col tc tcos,
      p.1 = normalizar_texto p.2.concepto_original ++ "_" ++ p.2.cod_os := by
  unfold procesar_maestro_individual
  have base : ∀ p ∈ ([] : List (String × Registro)),
      p.1 = normalizar_texto p.2.concepto_original ++ "_" ++ p.2.cod_os := by
    intro p hp
    simp at hp
  generalize hacc : ([] : List (String × Registro)) = acc at base ⊢
  clear hacc
  induction df.rows generalizing acc with
  | nil => exact base
  | cons fila resto ih =>
    rw [List.foldl_cons]
    exact ih _ (filaMaestro_claves df obra_col tc tcos base)

/-- C7: with translator indices as produced by the loader (well-formed
entries), each snapshot row resolves its code range by looking up the
normalized concept text first and, only on a miss, the raw
payer-internal-code string; a row with no resolution, or whose parsed
amount is ≤ 0 (or whose payer column is absent from the snapshot), is
skipped leaving the map unchanged; and every surviving row is inserted
— overwriting any earlier binding and leaving other keys unchanged —
under the key normalizeText(concept) + "_" + payerInternalCode. -/
theorem procesar_fila_caracterizacion
    (tc : List (String × EntradaConcepto)) (tcos : List (String × EntradaCodOs))
    (htc : mapaConceptoValido tc) (htcos : mapaCodOsValido tcos) :
    (∀ concepto cod_os : String,
      (∀ e, lookupA tc (normalizar_texto concepto) = some e →
        buscar_en_traductor concepto cod_os tc tcos = some ⟨e.cod_desde, e.cod_hasta⟩) ∧
      (lookupA tc (normalizar_texto concepto) = none →
        buscar_en_traductor concepto cod_os tc tcos =
          (lookupA tcos (pyStrip cod_os)).map (fun e => ⟨e.cod_desde, e.cod_hasta⟩))) ∧
    (∀ (df : DFrame) (obra_col : String) (datos : List (String × Registro))
        (fila : List Cell),
      (obra_col ∉ df.cols → filaMaestro df obra_col tc tcos datos fila = datos) ∧
      (limpiar_importe_raw (valorCelda df fila obra_col) ≤ 0 →
        filaMaestro df obra_col tc tcos datos fila = datos) ∧
      (buscar_en_traductor (pyStrip (cellStr (celda fila 1)))
          (pyStrip (cellStr (celda fila 0))) tc tcos = none →
        filaMaestro df obra_col tc tcos datos fila = datos) ∧
      (∀ rng : Rango, obra_col ∈ df.cols →
        0 < limpiar_importe_raw (valorCelda df fila obra_col) →
        buscar_en_traductor (pyStrip (cellStr (celda fila 1)))
          (pyStrip (cellStr (celda fila 0))) tc tcos = some rng →
        filaMaestro df obra_col tc tcos datos fila =
          insertOv (normalizar_texto (pyStrip (cellStr (celda fila 1))) ++ "_" ++
              pyStrip (cellStr (celda fila 0)))
            ⟨pyStrip (cellStr (celda fila 1)), pyStrip (cellStr (celda fila 0)),
              rng.cod_desde, rng.cod_hasta,
              limpiar_importe_raw (valorCelda df fila obra_col)⟩ datos)) ∧
    (∀ (k : String) (r : Registro) (datos : List (String × Registro)),
      lookupA (insertOv k r datos) k = some r ∧
      ∀ k', k' ≠ k → lookupA (insertOv k r datos) k' = lookupA datos k') := by
  refine ⟨?_, ?_, ?_⟩
  · intro concepto cod_os
    constructor
    · intro e he
      simp only [buscar_en_traductor, he]
    · intro hn
      simp only [buscar_en_traductor, hn]
      cases ho : lookupA tcos (pyStrip cod_os) <;> simp
  · intro df obra_col datos fila
    refine ⟨?_, ?_, ?_, ?_⟩
    · intro h
      simp only [filaMaestro, if_pos h]
    · intro h
      by_cases hm : obra_col ∉ df.cols
      · simp only [filaMaestro, if_pos hm]
      · simp only [filaMaestro, if_neg hm, if_pos h]
    · intro h
      by_cases hm : obra_col ∉ df.cols
      · simp only [filaMaestro, if_pos hm]
      · by_cases hv : limpiar_importe_raw (valorCelda df fila obra_col) ≤ 0
        · simp only [filaMaestro, if_neg hm, if_pos hv]
        · simp only [filaMaestro, if_neg hm, if_neg hv, h]
    · intro rng hm hv hres
      obtain ⟨⟨nd, hnd, hd⟩, ⟨nh, hnh, hh⟩⟩ := buscar_valido htc htcos hres
      have hvd : validar_codigo rng.cod_desde = true := by rw [hd]; exact validar_mkCod hnd
      have hvh : validar_codigo rng.cod_hasta = true := by rw [hh]; exact validar_mkCod hnh
      simp only [filaMaestro, if_neg (not_not_intro hm), if_neg (not_le.mpr hv), hres]
      rw [if_neg (not_not_intro ⟨hvd, hvh⟩)]
  · intro k r datos
    exact ⟨lookupA_insertOv_self k r datos, fun k' hk => lookupA_insertOv_ne k k' r hk datos⟩

theorem procesar_fila_caracterizacion_inst :
    buscar_en_traductor "X" "99"
        [("X", ⟨"77", "00000005", "00000006"⟩)] [("77", ⟨"X", "00000005", "00000006"⟩)] =
      some ⟨"00000005", "00000006"⟩ ∧
    filaMaestro ⟨["cod", "concepto", "OS1"], [[some "77", some "X", some "100"]]⟩ "OS1"
        [("X", ⟨"77", "00000005", "00000006"⟩)] [("77", ⟨"X", "00000005", "00000006"⟩)]
        [] [some "77", some "X", some "100"] =
      insertOv (normalizar_texto (pyStrip (cellStr (celda [some "77", some "X", some "100"] 1)))
          ++ "_" ++ pyStrip (cellStr (celda [some "77", some "X", some "100"] 0)))
        ⟨pyStrip (cellStr (celda [some "77", some "X", some "100"] 1)),
          pyStrip (cellStr (celda [some "77", some "X", some "100"] 0)),
          "00000005", "00000006",
          limpiar_importe_raw (valorCelda
            ⟨["cod", "concepto", "OS1"], [[some "77", some "X", some "100"]]⟩
            [some "77", some "X", some "100"] "OS1")⟩ [] := by
  have hok : cargar_traductor [[some "X", some "77", some "5", some "6"]] =
      .ok ⟨[("X", ⟨"77", "00000005", "00000006"⟩)],
           [("77", ⟨"X", "00000005", "00000006"⟩)]⟩ := by decide
  have hv := cargar_traductor_valido hok
  have hthm := procesar_fila_caracterizacion
    [("X", ⟨"77", "00000005", "00000006"⟩)] [("77", ⟨"X", "00000005", "00000006"⟩)]
    hv.1 hv.2
  refine ⟨(hthm.1 "X" "99").1 ⟨"77", "00000005", "00000006"⟩ (by decide), ?_⟩
  exact (hthm.2.1 ⟨["cod", "concepto", "OS1"], [[some "77", some "X", some "100"]]⟩ "OS1"
    [] [some "77", some "X", some "100"]).2.2.2 ⟨"00000005", "00000006"⟩
    (by decide) (by decide) (by decide)

/-- C9: `normalizar_texto` is idempotent; consequently every key of the
by-concept index built by the loader is a fixed point of normalization,
and every extracted-record key has the form
normalizeText(concept) + "_" + payerCode with a concept component that
is itself normalization-invariant. -/
theorem normalizar_texto_idempotente :
    (∀ s : String, normalizar_texto (normalizar_texto s) = normalizar_texto s) ∧
    (∀ (filas : List (List Cell)) (t : Traductores), cargar_traductor filas = .ok t →
      ∀ k e, lookupA t.por_concepto k = some e → normalizar_texto k = k) ∧
    (∀ (df : DFrame) (obra_col : String) (tc : List (String × EntradaConcepto))
        (tcos : List (String × EntradaCodOs)),
      ∀ p ∈ procesar_maestro_individual df obra_col tc tcos,
        p.1 = normalizar_texto p.2.concepto_original ++ "_" ++ p.2.cod_os ∧
        normalizar_texto (normalizar_texto p.2.concepto_original) =
          normalizar_texto p.2.concepto_original) := by
  refine ⟨normalizar_texto_fix, ?_, ?_⟩
  · intro filas t ht k e hl
    exact ((cargar_traductor_valido ht).1 k e hl).2
  · intro df obra_col tc tcos p hp
    exact ⟨procesar_claves df obra_col tc tcos p hp, normalizar_texto_fix _⟩

theorem normalizar_texto_idempotente_inst :
    normalizar_texto (normalizar_texto "  Café   Médico  ") =
      normalizar_texto "  Café   Médico  " ∧
    (∀ k e, lookupA
        (⟨[("CONCEPTO X", ⟨"77", "00000005", "00000006"⟩)],
          [("77", ⟨"CONCEPTO X", "00000005", "00000006"⟩)]⟩ : Traductores).por_concepto
        k = some e → normalizar_texto k = k) := by
  refine ⟨(normalizar_texto_idempotente.1 "  Café   Médico  "), ?_⟩
  exact normalizar_texto_idempotente.2.1
    [[some "Concepto X", some "77", some "5", some "6"]]
    ⟨[("CONCEPTO X", ⟨"77", "00000005", "00000006"⟩)],
      [("77", ⟨"CONCEPTO X", "00000005", "00000006"⟩)]⟩ (by decide)

/-- C10 (amended): with translator indices produced by the loader,
every emitted output record has non-empty range-bound fields of the
canonical form `mkCod n` for a strictly positive `n` — all decimal
digits, zero-padded to at least 8 characters (exactly 8 only when the
code value is below 10^8) — so the empty-string fallback branch of the
output-record construction is unreachable. -/
theorem salida_codigos_caracterizacion
    (filas : List (List Cell)) (t : Traductores) (ht : cargar_traductor filas = .ok t)
    (df : DFrame) (obra_col : String) :
    ∀ r ∈ datos_finales (procesar_maestro_individual df obra_col
        t.por_concepto t.por_cod_os),
      r.coddesde ≠ "" ∧ r.codhasta ≠ "" ∧
      codBienFormado r.coddesde ∧ codBienFormado r.codhasta ∧
      8 ≤ r.coddesde.data.length ∧ 8 ≤ r.codhasta.data.length ∧
      (∀ c ∈ r.coddesde.data, c.isDigit = true) ∧
      (∀ c ∈ r.codhasta.data, c.isDigit = true) := by
  intro r hr
  obtain ⟨hv1, hv2⟩ := cargar_traductor_valido ht
  have hdat := procesar_valido df obra_col t.por_concepto t.por_cod_os hv1 hv2
  rw [datos_finales, List.mem_map] at hr
  obtain ⟨p, hp, hrp⟩ := hr
  obtain ⟨⟨⟨nd, hnd, hd⟩, ⟨nh, hnh, hh⟩⟩, -⟩ := hdat p hp
  have hvd : validar_codigo p.2.cod_desde = true := by rw [hd]; exact validar_mkCod hnd
  have hvh : validar_codigo p.2.cod_hasta = true := by rw [hh]; exact validar_mkCod hnh
  have hcd : r.coddesde = mkCod nd := by
    rw [← hrp]
    show (if validar_codigo p.2.cod_desde then mkCod (intOfCode p.2.cod_desde) else "") =
      mkCod nd
    rw [if_pos hvd, hd, intOfCode_mkCod]
  have hch : r.codhasta = mkCod nh := by
    rw [← hrp]
    show (if validar_codigo p.2.cod_hasta then mkCod (intOfCode p.2.cod_hasta) else "") =
      mkCod nh
    rw [if_pos hvh, hh, intOfCode_mkCod]
  rw [hcd, hch]
  have hlen : ∀ n : ℕ, (mkCod n : String) ≠ "" := by
    intro n hcon
    have := mkCod_length n
    rw [hcon] at this
    simp at this
  exact ⟨hlen nd, hlen nh, ⟨nd, hnd, rfl⟩, ⟨nh, hnh, rfl⟩, mkCod_length nd, mkCod_length nh,
    fun c hc => mkCod_digits nd c hc, fun c hc => mkCod_digits nh c hc⟩

theorem salida_codigos_caracterizacion_inst :
    (⟨"1", "00000005", "00000006", "4", 100, "M", "", "", "0", "D"⟩ :
        FilaSalida).coddesde ≠ "" ∧
    (⟨"1", "00000005", "00000006", "4", 100, "M", "", "", "0", "D"⟩ :
        FilaSalida).codhasta ≠ "" ∧
    codBienFormado (⟨"1", "00000005", "00000006", "4", 100, "M", "", "", "0", "D"⟩ :
        FilaSalida).coddesde ∧
    codBienFormado (⟨"1", "00000005", "00000006", "4", 100, "M", "", "", "0", "D"⟩ :
        FilaSalida).codhasta ∧
    8 ≤ (⟨"1", "00000005", "00000006", "4", 100, "M", "", "", "0", "D"⟩ :
        FilaSalida).coddesde.data.length ∧
    8 ≤ (⟨"1", "00000005", "00000006", "4", 100, "M", "", "", "0", "D"⟩ :
        FilaSalida).codhasta.data.length := by
  obtain ⟨h1, h2, h3, h4, h5, h6, -, -⟩ :=
    salida_codigos_caracterizacion [[some "X", some "77", some "5", some "6"]]
      ⟨[("X", ⟨"77", "00000005", "00000006"⟩)], [("77", ⟨"X", "00000005", "00000006"⟩)]⟩
      (by decide) ⟨["cod", "concepto", "OS1"], [[some "77", some "X", some "100"]]⟩ "OS1"
      (⟨"1", "00000005", "00000006", "4", 100, "M", "", "", "0", "D"⟩ : FilaSalida)
      (by decide)
  exact ⟨h1, h2, h3, h4, h5, h6⟩

/-- C10 counterexample: a translator row with the nine-digit range
bound 123456789 passes validation end to end, and the emitted output
record carries the nine-character field "123456789" — not an
exactly-8-digit string (`zfill(8)` never truncates). -/
theorem salida_nueve_digitos_contra :
    cargar_traductor [[some "X", some "77", some "123456789", some "123456789"]] =
      .ok ⟨[("X", ⟨"77", "123456789", "123456789"⟩)],
           [("77", ⟨"X", "123456789", "123456789"⟩)]⟩ ∧
    (datos_finales (procesar_maestro_individual
        ⟨["cod", "concepto", "OS1"], [[some "77", some "X", some "100"]]⟩ "OS1"
        [("X", ⟨"77", "123456789", "123456789"⟩)]
        [("77", ⟨"X", "123456789", "123456789"⟩)])).map FilaSalida.coddesde =
      ["123456789"] ∧
    ¬ ("123456789" : String).data.length = 8 := by
  refine ⟨by decide, by decide, by decide⟩

theorem obraCambia_iff (df_actual df_anterior : DFrame)
    (tc : List (String × EntradaConcepto)) (tcos : List (String × EntradaCodOs))
    (obra_col : String) :
    obraCambia df_actual df_anterior tc tcos obra_col = true ↔
      obra_col ∉ df_anterior.cols ∨
      ¬ ((procesar_maestro_individual df_actual obra_col tc tcos).map Prod.fst ⊆
            (procesar_maestro_individual df_anterior obra_col tc tcos).map Prod.fst ∧
          (procesar_maestro_individual df_anterior obra_col tc tcos).map Prod.fst ⊆
            (procesar_maestro_individual df_actual obra_col tc tcos).map Prod.fst) ∨
      (∃ clave,
        clave ∈ (procesar_maestro_individual df_actual obra_col tc tcos).map Prod.fst ∧
        clave ∈ (procesar_maestro_individual df_anterior obra_col tc tcos).map Prod.fst ∧
        (0.01 : ℚ) <
          |((lookupA (procesar_maestro_individual df_actual obra_col tc tcos) clave).map
              Registro.valor).getD 0 -
            ((lookupA (procesar_maestro_individual df_anterior obra_col tc tcos) clave).map
              Registro.valor).getD 0|) := by
  unfold obraCambia
  by_cases hm : obra_col ∉ df_anterior.cols
  · rw [if_pos hm]
    simp [hm]
  · rw [if_neg hm]
    have hsub : ((procesar_maestro_individual df_actual obra_col tc tcos).map Prod.fst).all
          (fun k => k ∈ (procesar_maestro_individual df_anterior obra_col tc tcos).map Prod.fst) = true ∧
        ((procesar_maestro_individual df_anterior obra_col tc tcos).map Prod.fst).all
          (fun k => k ∈ (procesar_maestro_individual df_actual obra_col tc tcos).map Prod.fst) = true ↔
        ((procesar_maestro_individual df_actual obra_col tc tcos).map Prod.fst ⊆
            (procesar_maestro_individual df_anterior obra_col tc tcos).map Prod.fst ∧
          (procesar_maestro_individual df_anterior obra_col tc tcos).map Prod.fst ⊆
            (procesar_maestro_individual df_actual obra_col tc tcos).map Prod.fst) := by
      constructor
      · rintro ⟨h1, h2⟩
        constructor
        · intro a ha
          have := List.all_eq_true.mp h1 a ha
          simpa using this
        · intro a ha
          have := List.all_eq_true.mp h2 a ha
          simpa using this
      · rintro ⟨h1, h2⟩
        constructor
        · refine List.all_eq_true.mpr ?_
          intro a ha
          simpa using h1 ha
        · refine List.all_eq_true.mpr ?_
          intro a ha
          simpa using h2 ha
    by_cases hsets : ((procesar_maestro_individual df_actual obra_col tc tcos).map Prod.fst).all
          (fun k => k ∈ (procesar_maestro_individual df_anterior obra_col tc tcos).map Prod.fst) = true ∧
        ((procesar_maestro_individual df_anterior obra_col tc tcos).map Prod.fst).all
          (fun k => k ∈ (procesar_maestro_individual df_actual obra_col tc tcos).map Prod.fst) = true
    · rw [if_neg (not_not_intro hsets)]
      constructor
      · intro hany
        refine Or.inr (Or.inr ?_)
        obtain ⟨clave, hclave, hcond⟩ := List.any_eq_true.mp hany
        by_cases hmem : clave ∈ (procesar_maestro_individual df_anterior obra_col tc tcos).map Prod.fst
        · rw [if_pos hmem] at hcond
          exact ⟨clave, hclave, hmem, of_decide_eq_true hcond⟩
        · rw [if_neg hmem] at hcond
          simp at hcond
      · intro hdisj
        rcases hdisj with hd | hd | hd
        · exact absurd hd hm
        · exact absurd (hsub.mp hsets) hd
        · obtain ⟨clave, hact, hant, hgt⟩ := hd
          refine List.any_eq_true.mpr ⟨clave, hact, ?_⟩
          rw [if_pos hant]
          exact decide_eq_true hgt
    · rw [if_pos (by simpa using hsets)]
      simp only [true_iff]
      refine Or.inr (Or.inl ?_)
      intro hcon
      exact hsets (hsub.mpr hcon)

/-- C2: with empty previous-period extracted data the selector returns
the full payer-column list (full regeneration); otherwise a payer
column is selected exactly when it is a payer column and it is absent
from the previous snapshot's columns, or the independently
re-extracted record-key sets differ between the two snapshots, or some
shared key's amounts differ by more than 0.01; and the result is
always a subset of the given payer columns. -/
theorem detectar_caracterizacion
    (datos_actual datos_anterior : List (String × Registro))
    (obras_cols : List String) (df_actual df_anterior : DFrame)
    (tc : List (String × EntradaConcepto)) (tcos : List (String × EntradaCodOs)) :
    (datos_anterior = [] →
      detectar_obras_sociales_con_cambios datos_actual datos_anterior obras_cols
        df_actual df_anterior tc tcos = obras_cols) ∧
    (datos_anterior ≠ [] → ∀ obra_col : String,
      obra_col ∈ detectar_obras_sociales_con_cambios datos_actual datos_anterior
          obras_cols df_actual df_anterior tc tcos ↔
        obra_col ∈ obras_cols ∧
          (obra_col ∉ df_anterior.cols ∨
           ¬ ((procesar_maestro_individual df_actual obra_col tc tcos).map Prod.fst ⊆
                (procesar_maestro_individual df_anterior obra_col tc tcos).map Prod.fst ∧
              (procesar_maestro_individual df_anterior obra_col tc tcos).map Prod.fst ⊆
                (procesar_maestro_individual df_actual obra_col tc tcos).map Prod.fst) ∨
           (∃ clave,
             clave ∈ (procesar_maestro_individual df_actual obra_col tc tcos).map Prod.fst ∧
             clave ∈ (procesar_maestro_individual df_anterior obra_col tc tcos).map Prod.fst ∧
             (0.01 : ℚ) <
               |((lookupA (procesar_maestro_individual df_actual obra_col tc tcos) clave).map
                   Registro.valor).getD 0 -
                 ((lookupA (procesar_maestro_individual df_anterior obra_col tc tcos) clave).map
                   Registro.valor).getD 0|))) ∧
    (∀ x ∈ detectar_obras_sociales_con_cambios datos_actual datos_anterior obras_cols
        df_actual df_anterior tc tcos, x ∈ obras_cols) := by
  refine ⟨?_, ?_, ?_⟩
  · intro h
    unfold detectar_obras_sociales_con_cambios
    rw [if_pos h]
  · intro hne obra_col
    unfold detectar_obras_sociales_con_cambios
    rw [if_neg hne]
    rw [List.mem_filter]
    rw [obraCambia_iff]
  · intro x hx
    unfold detectar_obras_sociales_con_cambios at hx
    by_cases h : datos_anterior = []
    · rw [if_pos h] at hx
      exact hx
    · rw [if_neg h] at hx
      exact (List.mem_filter.mp hx).1

theorem detectar_caracterizacion_inst :
    detectar_obras_sociales_con_cambios []
        [("K", ⟨"Conc", "A", "00000001", "00000002", 10⟩)] ["OS1", "OS9"]
        ⟨["cod", "concepto", "OS1"], []⟩ ⟨["cod", "concepto", "OS1"], []⟩ [] [] =
      ["OS1", "OS9"].filter
        (obraCambia ⟨["cod", "concepto", "OS1"], []⟩ ⟨["cod", "concepto", "OS1"], []⟩ [] []) ∧
    detectar_obras_sociales_con_cambios [] [] ["OS1", "OS9"]
        ⟨["cod", "concepto", "OS1"], []⟩ ⟨["cod", "concepto", "OS1"], []⟩ [] [] =
      ["OS1", "OS9"] ∧
    ("OS9" ∈ detectar_obras_sociales_con_cambios []
        [("K", ⟨"Conc", "A", "00000001", "00000002", 10⟩)] ["OS1", "OS9"]
        ⟨["cod", "concepto", "OS1"], []⟩ ⟨["cod", "concepto", "OS1"], []⟩ [] [] ↔
      "OS9" ∈ (["OS1", "OS9"] : List String) ∧
        ("OS9" ∉ (⟨["cod", "concepto", "OS1"], []⟩ : DFrame).cols ∨
         ¬ ((procesar_maestro_individual ⟨["cod", "concepto", "OS1"], []⟩ "OS9" [] []).map Prod.fst ⊆
              (procesar_maestro_individual ⟨["cod", "concepto", "OS1"], []⟩ "OS9" [] []).map Prod.fst ∧
            (procesar_maestro_individual ⟨["cod", "concepto", "OS1"], []⟩ "OS9" [] []).map Prod.fst ⊆
              (procesar_maestro_individual ⟨["cod", "concepto", "OS1"], []⟩ "OS9" [] []).map Prod.fst) ∨
         (∃ clave,
           clave ∈ (procesar_maestro_individual ⟨["cod", "concepto", "OS1"], []⟩ "OS9" [] []).map Prod.fst ∧
           clave ∈ (procesar_maestro_individual ⟨["cod", "concepto", "OS1"], []⟩ "OS9" [] []).map Prod.fst ∧
           (0.01 : ℚ) <
             |((lookupA (procesar_maestro_individual ⟨["cod", "concepto", "OS1"], []⟩ "OS9" [] []) clave).map
                 Registro.valor).getD 0 -
               ((lookupA (procesar_maestro_individual ⟨["cod", "concepto", "OS1"], []⟩ "OS9" [] []) clave).map
                 Registro.valor).getD 0|))) := by
  refine ⟨rfl, ?_, ?_⟩
  · exact (detectar_caracterizacion [] [] ["OS1", "OS9"]
      ⟨["cod", "concepto", "OS1"], []⟩ ⟨["cod", "concepto", "OS1"], []⟩ [] []).1 rfl
  · exact (detectar_caracterizacion [] [("K", ⟨"Conc", "A", "00000001", "00000002", 10⟩)]
      ["OS1", "OS9"] ⟨["cod", "concepto", "OS1"], []⟩ ⟨["cod", "concepto", "OS1"], []⟩
      [] []).2.1 (by decide) "OS9"

theorem strTruthy_iff {o : Option String} :
    strTruthy o = true ↔ ∃ s, o = some s ∧ s ≠ "" := by
  cases o with
  | none => simp [strTruthy]
  | some s =>
    simp only [strTruthy]
    constructor
    · intro h
      exact ⟨s, rfl, by simpa using h⟩
    · rintro ⟨s', hs', hne⟩
      injection hs' with hs'
      subst hs'
      simpa using hne

theorem marcarRepetidos_campos {filas : List FilaCambio} :
    ∀ f ∈ filas, ∃ g ∈ marcarRepetidos filas,
      g.estado = f.estado ∧ g.cod_os_antes = f.cod_os_antes ∧
      g.cod_os_actual = f.cod_os_actual ∧ g.concepto_antes = f.concepto_antes ∧
      g.concepto_actual = f.concepto_actual := by
  intro f hf
  unfold marcarRepetidos
  rw [if_neg (by rintro rfl; simp at hf)]
  refine ⟨_, List.mem_map_of_mem _ hf, ?_⟩
  split <;> simp

theorem mem_codosTodos_of_lookup_ant {datos_actual datos_anterior : List (String × Registro)}
    {cod s : String} (h : lookupA (codosAConcepto datos_anterior) cod = some s) :
    cod ∈ ((codosAConcepto datos_anterior).map Prod.fst ++
      (codosAConcepto datos_actual).map Prod.fst).dedup := by
  rw [List.mem_dedup, List.mem_append]
  exact Or.inl (List.mem_map_of_mem Prod.fst (lookupA_mem h))

theorem mem_codosTodos_of_lookup_act {datos_actual datos_anterior : List (String × Registro)}
    {cod s : String} (h : lookupA (codosAConcepto datos_actual) cod = some s) :
    cod ∈ ((codosAConcepto datos_anterior).map Prod.fst ++
      (codosAConcepto datos_actual).map Prod.fst).dedup := by
  rw [List.mem_dedup, List.mem_append]
  exact Or.inr (List.mem_map_of_mem Prod.fst (lookupA_mem h))

/-- C1 (amended): one change-log entry is produced per payer code
exactly when its concept is present — with Python truthiness, i.e.
present and non-empty — on both sides and differs ("Modificado"),
present and non-empty only on the previous side ("Eliminado"), or
present and non-empty only on the current side ("Nuevo"); codes whose
concepts agree, or whose concept is empty or absent on both sides,
produce no entry — in particular, extracted-record maps inducing
identical code-to-concept associations yield an empty change log even
when amounts differ between the periods. -/
theorem comparar_caracterizacion
    (datos_actual datos_anterior : List (String × Registro))
    (obras_cols : List String) (df_actual df_anterior : DFrame) :
    ((∀ cod, lookupA (codosAConcepto datos_anterior) cod =
        lookupA (codosAConcepto datos_actual) cod) →
      comparar_maestros_global datos_actual datos_anterior obras_cols
        df_actual df_anterior = []) ∧
    (∀ cod : String,
      (strTruthy (lookupA (codosAConcepto datos_anterior) cod) = true →
       strTruthy (lookupA (codosAConcepto datos_actual) cod) = true →
       lookupA (codosAConcepto datos_anterior) cod ≠
         lookupA (codosAConcepto datos_actual) cod →
        ∃ f ∈ comparar_maestros_global datos_actual datos_anterior obras_cols
            df_actual df_anterior,
          f.estado = "Modificado" ∧ f.cod_os_antes = cod ∧ f.cod_os_actual = cod) ∧
      (strTruthy (lookupA (codosAConcepto datos_anterior) cod) = true →
       ¬ strTruthy (lookupA (codosAConcepto datos_actual) cod) = true →
        ∃ f ∈ comparar_maestros_global datos_actual datos_anterior obras_cols
            df_actual df_anterior,
          f.estado = "Eliminado" ∧ f.cod_os_antes = cod ∧ f.cod_os_actual = "") ∧
      (strTruthy (lookupA (codosAConcepto datos_actual) cod) = true →
       ¬ strTruthy (lookupA (codosAConcepto datos_anterior) cod) = true →
        ∃ f ∈ comparar_maestros_global datos_actual datos_anterior obras_cols
            df_actual df_anterior,
          f.estado = "Nuevo" ∧ f.cod_os_antes = "" ∧ f.cod_os_actual = cod) ∧
      (lookupA (codosAConcepto datos_anterior) cod =
          lookupA (codosAConcepto datos_actual) cod →
        mkCambio (codosAConcepto datos_anterior) (codosAConcepto datos_actual)
          obras_cols df_actual cod = none) ∧
      (¬ strTruthy (lookupA (codosAConcepto datos_anterior) cod) = true →
       ¬ strTruthy (lookupA (codosAConcepto datos_actual) cod) = true →
        mkCambio (codosAConcepto datos_anterior) (codosAConcepto datos_actual)
          obras_cols df_actual cod = none)) := by
  have hnone : ∀ cod,
      lookupA (codosAConcepto datos_anterior) cod =
        lookupA (codosAConcepto datos_actual) cod →
      mkCambio (codosAConcepto datos_anterior) (codosAConcepto datos_actual)
        obras_cols df_actual cod = none := by
    intro cod heq
    simp only [mkCambio]
    rw [heq]
    by_cases ht : strTruthy (lookupA (codosAConcepto datos_actual) cod) = true
    · rw [if_pos ⟨ht, ht⟩, if_neg (not_not_intro rfl)]
    · rw [if_neg (by intro hc; exact ht hc.2),
        if_neg (by intro hc; exact ht hc.1),
        if_neg (by intro hc; exact ht hc.1)]
  have hnone2 : ∀ cod,
      ¬ strTruthy (lookupA (codosAConcepto datos_anterior) cod) = true →
      ¬ strTruthy (lookupA (codosAConcepto datos_actual) cod) = true →
      mkCambio (codosAConcepto datos_anterior) (codosAConcepto datos_actual)
        obras_cols df_actual cod = none := by
    intro cod ha hc
    simp only [mkCambio]
    rw [if_neg (by intro h; exact ha h.1), if_neg (by intro h; exact ha h.1),
      if_neg (by intro h; exact hc h.1)]
  have hmem : ∀ (cod : String) (f : FilaCambio),
      cod ∈ ((codosAConcepto datos_anterior).map Prod.fst ++
        (codosAConcepto datos_actual).map Prod.fst).dedup →
      mkCambio (codosAConcepto datos_anterior) (codosAConcepto datos_actual)
        obras_cols df_actual cod = some f →
      ∃ g ∈ comparar_maestros_global datos_actual datos_anterior obras_cols
          df_actual df_anterior,
        g.estado = f.estado ∧ g.cod_os_antes = f.cod_os_antes ∧
        g.cod_os_actual = f.cod_os_actual := by
    intro cod f hcod hmk
    have hf : f ∈ (((codosAConcepto datos_anterior).map Prod.fst ++
        (codosAConcepto datos_actual).map Prod.fst).dedup).filterMap
          (mkCambio (codosAConcepto datos_anterior) (codosAConcepto datos_actual)
            obras_cols df_actual) :=
      List.mem_filterMap.mpr ⟨cod, hcod, hmk⟩
    obtain ⟨g, hg, h1, h2, h3, -, -⟩ := marcarRepetidos_campos f hf
    exact ⟨g, hg, h1, h2, h3⟩
  refine ⟨?_, ?_⟩
  · intro heq
    simp only [comparar_maestros_global]
    have hfm : (((codosAConcepto datos_anterior).map Prod.fst ++
        (codosAConcepto datos_actual).map Prod.fst).dedup).filterMap
          (mkCambio (codosAConcepto datos_anterior) (codosAConcepto datos_actual)
            obras_cols df_actual) = [] := by
      refine List.filterMap_eq_nil_iff.mpr ?_
      intro cod _
      exact hnone cod (heq cod)
    rw [hfm]
    rfl
  · intro cod
    refine ⟨?_, ?_, ?_, hnone cod, hnone2 cod⟩
    · intro ha hc hne
      have hmk : mkCambio (codosAConcepto datos_anterior) (codosAConcepto datos_actual)
          obras_cols df_actual cod =
          some { cod_os_antes := cod, cod_os_actual := cod,
                 concepto_antes := (lookupA (codosAConcepto datos_anterior) cod).getD "",
                 concepto_actual := (lookupA (codosAConcepto datos_actual) cod).getD "",
                 estado := "Modificado",
                 valores := obras_cols.map (fun obra_col =>
                   (normalizar_texto obra_col,
                    valorObra df_actual cod (lookupA (codosAConcepto datos_actual) cod) obra_col)),
                 repetido := "" } := by
        simp only [mkCambio]
        rw [if_pos ⟨ha, hc⟩, if_pos hne]
        simp only [ha, hc, if_true]
      obtain ⟨s, hs, -⟩ := strTruthy_iff.mp ha
      obtain ⟨g, hg, h1, h2, h3⟩ := hmem cod _ (mem_codosTodos_of_lookup_ant hs) hmk
      exact ⟨g, hg, h1, h2, h3⟩
    · intro ha hc
      have hmk : mkCambio (codosAConcepto datos_anterior) (codosAConcepto datos_actual)
          obras_cols df_actual cod =
          some { cod_os_antes := cod, cod_os_actual := "",
                 concepto_antes := (lookupA (codosAConcepto datos_anterior) cod).getD "",
                 concepto_actual := "",
                 estado := "Eliminado",
                 valores := obras_cols.map (fun obra_col =>
                   (normalizar_texto obra_col,
                    valorObra df_actual cod (lookupA (codosAConcepto datos_actual) cod) obra_col)),
                 repetido := "" } := by
        simp only [mkCambio]
        rw [if_neg (by intro h; exact hc h.2), if_pos ⟨ha, hc⟩]
        have hcb : strTruthy (lookupA (codosAConcepto datos_actual) cod) = false := by
          revert hc; cases strTruthy (lookupA (codosAConcepto datos_actual) cod) <;> simp
        simp only [ha, hcb, if_true, Bool.false_eq_true, if_false]
      obtain ⟨s, hs, -⟩ := strTruthy_iff.mp ha
      obtain ⟨g, hg, h1, h2, h3⟩ := hmem cod _ (mem_codosTodos_of_lookup_ant hs) hmk
      exact ⟨g, hg, h1, h2, h3⟩
    · intro hc ha
      have hmk : mkCambio (codosAConcepto datos_anterior) (codosAConcepto datos_actual)
          obras_cols df_actual cod =
          some { cod_os_antes := "", cod_os_actual := cod,
                 concepto_antes := "",
                 concepto_actual := (lookupA (codosAConcepto datos_actual) cod).getD "",
                 estado := "Nuevo",
                 valores := obras_cols.map (fun obra_col =>
                   (normalizar_texto obra_col,
                    valorObra df_actual cod (lookupA (codosAConcepto datos_actual) cod) obra_col)),
                 repetido := "" } := by
        simp only [mkCambio]
        rw [if_neg (by intro h; exact ha h.1), if_neg (by intro h; exact ha h.1),
          if_pos ⟨hc, ha⟩]
        have hab : strTruthy (lookupA (codosAConcepto datos_anterior) cod) = false := by
          revert ha; cases strTruthy (lookupA (codosAConcepto datos_anterior) cod) <;> simp
        simp only [hc, hab, if_true, Bool.false_eq_true, if_false]
      obtain ⟨s, hs, -⟩ := strTruthy_iff.mp hc
      obtain ⟨g, hg, h1, h2, h3⟩ := hmem cod _ (mem_codosTodos_of_lookup_act hs) hmk
      exact ⟨g, hg, h1, h2, h3⟩

theorem comparar_caracterizacion_inst :
    comparar_maestros_global [("K", ⟨"X", "A", "00000001", "00000002", 999⟩)]
      [("K", ⟨"X", "A", "00000001", "00000002", 10⟩)] [] ⟨[], []⟩ ⟨[], []⟩ = [] ∧
    (∃ f ∈ comparar_maestros_global [("K2", ⟨"Y", "A", "00000001", "00000002", 10⟩)]
        [("K", ⟨"X", "A", "00000001", "00000002", 10⟩)] [] ⟨[], []⟩ ⟨[], []⟩,
      f.estado = "Modificado" ∧ f.cod_os_antes = "A" ∧ f.cod_os_actual = "A") := by
  refine ⟨(comparar_caracterizacion [("K", ⟨"X", "A", "00000001", "00000002", 999⟩)]
      [("K", ⟨"X", "A", "00000001", "00000002", 10⟩)] [] ⟨[], []⟩ ⟨[], []⟩).1
      (fun cod => rfl),
    ((comparar_caracterizacion [("K2", ⟨"Y", "A", "00000001", "00000002", 10⟩)]
      [("K", ⟨"X", "A", "00000001", "00000002", 10⟩)] [] ⟨[], []⟩ ⟨[], []⟩).2 "A").1
      (by decide) (by decide) (by decide)⟩

/-- C1 counterexample: a payer code present only in the previous period
but whose concept text is the empty string is falsy under Python
truthiness, so `comparar_maestros_global` produces no entry at all for
it — refuting the claim's "only-in-previous yields Eliminado" (the code
"A" appears in the previous period and disappears, yet the change list
is empty). -/
theorem comparar_concepto_vacio_contra :
    lookupA (codosAConcepto [("K", ⟨"", "A", "00000001", "00000002", 1⟩)]) "A" =
      some "" ∧
    lookupA (codosAConcepto ([] : List (String × Registro))) "A" = none ∧
    comparar_maestros_global [] [("K", ⟨"", "A", "00000001", "00000002", 1⟩)] []
      ⟨[], []⟩ ⟨[], []⟩ = [] :=
  ⟨by decide, by decide, by decide⟩
